import Mathlib

/-!
Shallow embedding of the `go-router` repository (`src/router/router.go`).

The source file contains two coexisting variants of the router:
* a tree variant (routes/groups nested via `route.route`, dispatch through
  `iterateRoutes`), and
* a flat "strata" variant (a priority list of `stratum` entries, dispatch
  through the strata loop in its `ServeHTTP`).

Suffix `T` marks definitions translated from the tree variant, suffix `F`
marks definitions translated from the flat variant.  Go maps of captured
variables are modelled as insertion-ordered association lists with
replace-on-insert, and Go's `nil` map / `nil` slice are modelled with
`Option` (`none` = `nil`).  A Go runtime panic during registration or
pattern compilation is modelled by an `Option` result (`none` = panic).
-/

namespace GoRouter

/-- Go `strings.Trim(path, "/")`: remove all leading and trailing `/`. -/
def trimSlashes (s : String) : String :=
  String.mk (((s.toList.dropWhile (· == '/')).reverse.dropWhile (· == '/')).reverse)

/-- `strings.Split` on a one-character separator, over the character list.
As in Go, the empty input yields one empty field. -/
def splitChar (sep : Char) : List Char → List (List Char)
  | [] => [[]]
  | c :: rest =>
    match splitChar sep rest with
    | [] => [[c]]
    | g :: gs => if c == sep then [] :: g :: gs else (c :: g) :: gs

/-- Go `strings.Split(s, sep)` for a one-character separator. -/
def goSplit (s : String) (sep : Char) : List String :=
  (splitChar sep s.toList).map String.mk

/-- Go `explodePath`: `strings.Split(strings.Trim(path, "/"), "/")`.
Note `strings.Split("", "/") = [""]`. -/
def explodePath (path : String) : List String :=
  goSplit (trimSlashes path) '/'

/-- Go `strings.IndexAny(s, ":[]") != -1`: does `s` contain a reserved char? -/
def containsIllegal (s : String) : Bool :=
  s.toList.any fun c => c == ':' || c == '[' || c == ']'

/-- Whitespace characters trimmed by Go `strings.TrimSpace`
(the ASCII ones; non-ASCII space never occurs in this development). -/
def goIsSpace (c : Char) : Bool :=
  c == ' ' || c == '\t' || c == '\n' || c == '\x0b' || c == '\x0c' || c == '\r'

/-- Go `strings.TrimSpace`. -/
def goTrimSpace (s : String) : String :=
  String.mk (((s.toList.dropWhile goIsSpace).reverse.dropWhile goIsSpace).reverse)

/-- Go `strings.HasPrefix(m, "^")`, over the character list. -/
def hasCaret (m : String) : Bool :=
  match m.toList with
  | '^' :: _ => true
  | _ => false

/-- Go `m[1:]` for an entry beginning with the one-byte rune `^`. -/
def caretSuffix (m : String) : String :=
  String.mk (m.toList.drop 1)

/-- One compiled pattern segment (`type segment` — identical in both
variants).  `matches = none` models the Go `nil` slice (wildcard). -/
structure Segment where
  raw : String
  varName : String
  matchList : Option (List String)
deriving DecidableEq, Repr

/-- Captured path variables: Go `Vars = map[string]string`, modelled as an
insertion-ordered association list with replace-on-insert. -/
abbrev VarsList := List (String × String)

/-- Go map assignment `vars[k] = v`: replace an existing key, else append. -/
def mapInsert : VarsList → String → String → VarsList
  | [], k, v => [(k, v)]
  | (k', v') :: rest, k, v =>
    if k' == k then (k, v) :: rest else (k', v') :: mapInsert rest k v

/-- Record the capture `vars[seg.varName] = v` when the segment is named
(`seg.varName != ""`), as both `pathsMatch` variants do. -/
def bindVar (seg : Segment) (v : String) (vars : VarsList) : VarsList :=
  if seg.varName == "" then vars else mapInsert vars seg.varName v

/-! ### Path matcher, tree variant (`pathsMatch`, router.go lines 341-380).
No exclusion entries: the inner loop sets `found` at the first equal entry. -/

/-- Per-segment loop body of the tree `pathsMatch` over `pattern`/`reqPath`
pairs; `none` models `return nil, false`. -/
def pmLoopT : List (Segment × String) → VarsList → Option VarsList
  | [], vars => some vars
  | (seg, v) :: rest, vars =>
    match seg.matchList with
    | none => pmLoopT rest (bindVar seg v vars)
    | some ms =>
      if ms.any (· == v) then pmLoopT rest (bindVar seg v vars)
      else none

/-- Tree-variant `pathsMatch`.  Result mirrors Go's `(vars, ok)`:
on failure `(nil, false)`; on success `vars` is `nil` when empty. -/
def pathsMatchT (pattern : List Segment) (reqPath : List String) :
    Option VarsList × Bool :=
  if pattern.length ≠ reqPath.length then (none, false)
  else
    match pmLoopT (pattern.zip reqPath) [] with
    | none => (none, false)
    | some vars => (if vars == [] then none else some vars, true)

/-! ### Path matcher, flat variant (`pathsMatch`, router.go lines 833-884).
Entries beginning with `^` are exclusions: an exclusion whose suffix equals
the request value returns `nil, false` for the whole match; an inclusion
match sets `found` and `break`s out of the scan. -/

/-- Scan of one segment's entry list against the request value `v`.
`none` models the exclusion veto (`return nil, false`); `some found`
models falling out of the loop (`break` at the first inclusion hit). -/
def scanMatchesF : List String → String → Option Bool
  | [], _ => some false
  | m :: rest, v =>
    if hasCaret m then
      if caretSuffix m == v then none else scanMatchesF rest v
    else
      if m == v then some true else scanMatchesF rest v

/-- Per-segment loop body of the flat `pathsMatch`. -/
def pmLoopF : List (Segment × String) → VarsList → Option VarsList
  | [], vars => some vars
  | (seg, v) :: rest, vars =>
    match seg.matchList with
    | none => pmLoopF rest (bindVar seg v vars)
    | some ms =>
      match scanMatchesF ms v with
      | none => none
      | some false => none
      | some true => pmLoopF rest (bindVar seg v vars)

/-- Flat-variant `pathsMatch` (with exclusion entries). -/
def pathsMatchF (pattern : List Segment) (reqPath : List String) :
    Option VarsList × Bool :=
  if pattern.length ≠ reqPath.length then (none, false)
  else
    match pmLoopF (pattern.zip reqPath) [] with
    | none => (none, false)
    | some vars => (if vars == [] then none else some vars, true)

/-- A segment entry list vetoes value `v` before any inclusion accepts it:
walking the list in order, an exclusion entry for `v` is reached before any
inclusion entry equal to `v` (which would stop the scan). -/
def vetoesBeforeIncl : List String → String → Bool
  | [], _ => false
  | m :: rest, v =>
    if hasCaret m then
      (caretSuffix m == v) || vetoesBeforeIncl rest v
    else
      if m == v then false else vetoesBeforeIncl rest v

/-! ### Configuration errors (the `fmt.Errorf` payloads of both variants). -/

/-- One configuration error appended to `rt.Errors`; each constructor
models one `fmt.Errorf` site with the data interpolated there. -/
inductive GoErr where
  /-- tree `Use`: "function supplied to Use is nil" -/
  | nilUseT : GoErr
  /-- tree `add`: "no handler supplied for route %s %s" -/
  | nilHandlerT (method pattern : String) : GoErr
  /-- tree `add`: "unreachable route due to duplicate method and pattern: %s %s" -/
  | dupRouteT (method pattern : String) : GoErr
  /-- flat `Use`: "route %d: function supplied to Use is nil" -/
  | nilUseF (idx : Nat) : GoErr
  /-- flat `Add`: "route %d: invalid HTTP method %s for pattern %s" -/
  | invalidMethodF (idx : Nat) (method pattern : String) : GoErr
  /-- flat `Add`: "route %d: no handler function supplied for %s %s" -/
  | nilHandlerF (idx : Nat) (method pattern : String) : GoErr
  /-- flat `Add`: "route %d: middleware at index %d for %s %s is nil" -/
  | nilMiddlewareF (idx mwIdx : Nat) (method pattern : String) : GoErr
  /-- flat `Add`: "route %d: unreachable route due to duplicate method and
  pattern pairing: %s %s" -/
  | dupRouteF (idx : Nat) (method pattern : String) : GoErr
  /-- `illegalChar(pattern, kind, ":[]")` -/
  | illegalCharErr (pattern kind : String) : GoErr
  /-- `expandPattern`: pattern segment contains `[` but does not end with `]` -/
  | unmatchedBracket (pattern : String) : GoErr
  /-- `validVarName`: no variable name after `:` -/
  | noVarName (pattern : String) : GoErr
  /-- `validVarName`: duplicate instances of variable name -/
  | dupVarName (name pattern : String) : GoErr
deriving DecidableEq, Repr

/-! ### Pattern compiler.
`expandPattern` exists in both variants; the tree one (router.go 382-461)
early-returns on the empty pattern and tracks duplicate variable names via
`seenVars`/`validVarName`; the flat one (748-818) has neither.  Go byte
indices coincide with character indices here (ASCII patterns).  A `none`
result models a Go runtime panic (indexing `sp[0]` of an empty sub-pattern,
or the slice `sp[listStart+1 : len(sp)-1]` with `listStart+1 > len(sp)-1`). -/

/-- Tree `validVarName(pattern, name, vars)`. -/
def validVarName (pattern name : String) (seen : List String) : List GoErr :=
  if name == "" then [GoErr.noVarName pattern]
  else if seen.contains name then [GoErr.dupVarName name pattern]
  else []

/-- `seenVars[name] = true`. -/
def seenInsert (seen : List String) (name : String) : List String :=
  if seen.contains name then seen else seen ++ [name]

/-- The literal-segment case (`sp[0] != ':' && sp[0] != '['`): on a reserved
character the segment is dropped with one error; otherwise the later
`literal != nil` overwrite yields `matches = [sp]` (the raw, untrimmed
literal). -/
def literalSeg (pattern sp : String) : Option Segment × List GoErr :=
  if containsIllegal sp then (none, [GoErr.illegalCharErr pattern "literal"])
  else (some ⟨sp, "", some [sp]⟩, [])

/-- The whitelist tail shared by the `sp[0] == ':'`-with-list (fallthrough)
and `sp[0] == '['` cases: bracket check, entry split/trim/validation.
`preErrs` carries the `validVarName` errors already produced; error order
matches the Go appends (case errors, then variable-name reserved-character
check, then per-entry checks). -/
def whitelistSeg (pattern sp : String) (listStart : Nat) (varName : String)
    (preErrs : List GoErr) : Option (Option Segment × List GoErr) :=
  let cs := sp.toList
  let bracketErrs :=
    if cs.getLast? == some ']' then [] else [GoErr.unmatchedBracket pattern]
  if cs.length < listStart + 2 then none
  else
    let inner := String.mk ((cs.drop (listStart + 1)).take (cs.length - 1 - (listStart + 1)))
    let entries := (goSplit inner ',').map goTrimSpace
    let varErrs :=
      if containsIllegal varName then [GoErr.illegalCharErr pattern "variable"] else []
    let entryErrs :=
      (entries.filter containsIllegal).map fun _ => GoErr.illegalCharErr pattern "whitelist"
    let errs := preErrs ++ bracketErrs ++ varErrs ++ entryErrs
    if errs.isEmpty then some (some ⟨sp, varName, some entries⟩, [])
    else some (none, errs)

/-- One iteration of the tree `expandPattern` loop body on sub-pattern `sp`:
yields the appended segment (if any), the errors appended to `rt.Errors`,
and the updated `seenVars`. -/
def procSpT (pattern : String) (seen : List String) (sp : String) :
    Option (Option Segment × List GoErr × List String) :=
  match sp.toList with
  | [] => none
  | c0 :: _ =>
    if c0 == ':' then
      let cs := sp.toList
      match cs.findIdx? (· == '[') with
      | none =>
        let varName := String.mk (cs.drop 1)
        let vErrs := validVarName pattern varName seen
        let seen' := seenInsert seen varName
        let varErrs :=
          if containsIllegal varName then [GoErr.illegalCharErr pattern "variable"] else []
        let errs := vErrs ++ varErrs
        if errs.isEmpty then some (some ⟨sp, varName, none⟩, [], seen')
        else some (none, errs, seen')
      | some listStart =>
        let varName := String.mk ((cs.drop 1).take (listStart - 1))
        let vErrs := validVarName pattern varName seen
        let seen' := seenInsert seen varName
        match whitelistSeg pattern sp listStart varName vErrs with
        | none => none
        | some (segOpt, errs) => some (segOpt, errs, seen')
    else if c0 == '[' then
      match whitelistSeg pattern sp 0 "" [] with
      | none => none
      | some (segOpt, errs) => some (segOpt, errs, seen)
    else
      let (segOpt, errs) := literalSeg pattern sp
      some (segOpt, errs, seen)

/-- The tree `expandPattern` loop over the exploded sub-patterns. -/
def expandLoopT (pattern : String) : List String → List String →
    Option (List Segment × List GoErr)
  | [], _ => some ([], [])
  | sp :: rest, seen =>
    match procSpT pattern seen sp with
    | none => none
    | some (segOpt, errs, seen') =>
      match expandLoopT pattern rest seen' with
      | none => none
      | some (segs, errs') => some (segOpt.toList ++ segs, errs ++ errs')

/-- Tree-variant `expandPattern`: the compiled segments and the errors the
call appends to `rt.Errors` (`none` = registration-time panic). -/
def expandPatternT (pattern : String) : Option (List Segment × List GoErr) :=
  if pattern == "" then some ([], [])
  else expandLoopT pattern (explodePath pattern) []

/-- One iteration of the flat `expandPattern` loop body (no `seenVars`, no
`validVarName`). -/
def procSpF (pattern sp : String) : Option (Option Segment × List GoErr) :=
  match sp.toList with
  | [] => none
  | c0 :: _ =>
    if c0 == ':' then
      let cs := sp.toList
      match cs.findIdx? (· == '[') with
      | none =>
        let varName := String.mk (cs.drop 1)
        let varErrs :=
          if containsIllegal varName then [GoErr.illegalCharErr pattern "variable"] else []
        if varErrs.isEmpty then some (some ⟨sp, varName, none⟩, [])
        else some (none, varErrs)
      | some listStart =>
        let varName := String.mk ((cs.drop 1).take (listStart - 1))
        whitelistSeg pattern sp listStart varName []
    else if c0 == '[' then
      whitelistSeg pattern sp 0 "" []
    else
      some (literalSeg pattern sp)

/-- The flat `expandPattern` loop over the exploded sub-patterns. -/
def expandLoopF (pattern : String) : List String →
    Option (List Segment × List GoErr)
  | [] => some ([], [])
  | sp :: rest =>
    match procSpF pattern sp with
    | none => none
    | some (segOpt, errs) =>
      match expandLoopF pattern rest with
      | none => none
      | some (segs, errs') => some (segOpt.toList ++ segs, errs ++ errs')

/-- Flat-variant `expandPattern` (no empty-pattern early return: the empty
pattern explodes to `[""]` and indexing `sp[0]` panics). -/
def expandPatternF (pattern : String) : Option (List Segment × List GoErr) :=
  expandLoopF pattern (explodePath pattern)

/-! ### Request context and observable dispatch events.
`*Request` is the per-dispatch mutable record; callback values (handlers,
middleware, guards) receive it and may mutate it, modelled by explicit
state passing.  A Go panic raised inside a callback is modelled by an
`Except.error` carrying the panic payload rendered as a string.  Dispatch
functions additionally return a chronological list of observable events
(which callbacks were invoked and with what context), which the Go code
performs as side effects. -/

/-- The `Request` record (`Id`/`Vars`/`Status`/`Error` fields; the `User`
and `Began` fields play no role in any claim and are omitted).  The
underlying `*http.Request` (its method and URL path) is owned by the host
server and read-only for the router, so it is threaded as explicit
parameters rather than stored here. -/
structure Req where
  id : String
  vars : Option VarsList
  status : Int
  error : Option String
deriving DecidableEq, Repr

/-- Flat-variant `Middleware = func(r *Request) (status int, err error)`:
state-passing with a possible panic. -/
abbrev MW := Req → Except String ((Int × Option String) × Req)

/-- A handler: an observable identity `hid` plus its effect on the request
context, with a possible panic. -/
structure HandlerF where
  hid : Nat
  act : Req → Except String Req

/-- Observable dispatch events, in chronological order. -/
inductive Ev where
  /-- the `Before` hook ran -/
  | beforeHook : Ev
  /-- the flat `Redirect` hook ran -/
  | redirectHook : Ev
  /-- the global-middleware entry of stratum `idx` ran; `varsAtCall` is
  `request.Vars` at invocation -/
  | callRun (idx : Nat) (varsAtCall : Option VarsList) : Ev
  /-- per-route middleware number `idx` of the matched stratum ran -/
  | mwRun (idx : Nat) (varsAtCall : Option VarsList) : Ev
  /-- flat-variant handler `hid` was invoked with `request.Vars = varsAtCall` -/
  | handlerRun (hid : Nat) (varsAtCall : Option VarsList) : Ev
  /-- tree-variant handler `hid` was invoked -/
  | treeHandlerRun (hid : Nat) : Ev
  /-- the `Error` hook ran with the given status and context error -/
  | errorHook (status : Int) (err : Option String) : Ev
  /-- the `Recover` hook ran with the recovered panic payload -/
  | recoverHook (payload : String) : Ev
  /-- the `Deferred` hook ran -/
  | deferredHook : Ev
  /-- flat variant: `w.WriteHeader(statusCode)` -/
  | statusWrite (code : Int) : Ev
deriving DecidableEq, Repr

/-! ### Flat ("strata") variant: registration and dispatch
(router.go lines 509-746). -/

/-- `type stratum struct` of the flat variant.  A `Use` registration
produces an entry whose `call` field is set (or `none` when Go was given a
nil function); route registrations leave `call = none`. -/
structure Stratum where
  method : String
  pattern : List Segment
  handler : Option HandlerF
  middleware : List (Option MW)
  call : Option MW

/-- The flat `Router` struct.  Hooks that only matter by presence/absence
are booleans; their execution is recorded as events. -/
structure FRouter where
  strata : List Stratum
  errors : List GoErr
  errorHook : Bool
  redirect : Option (Req → Bool × Req)
  before : Bool
  idGen : Option String
  deferredHook : Bool
  recoverHook : Bool

/-- A zero-valued flat `Router`. -/
def emptyF : FRouter := ⟨[], [], false, none, false, none, false, false⟩

/-- The canonical method list (`var methods`). -/
def methods : List String :=
  ["HEAD", "GET", "POST", "PUT", "PATCH", "DELETE", "CONNECT", "OPTIONS", "TRACE"]

/-- Flat `isUnique`: no earlier stratum with the same method whose pattern
matches the new pattern's own exploded rendering. -/
def isUniqueF (rt : FRouter) (method pattern : String) : Bool :=
  !(rt.strata.any fun s =>
    s.method == method && (pathsMatchF s.pattern (explodePath pattern)).2)

/-- Flat `Use`: appends `stratum{call: fn}`, recording an error first when
the function is nil. -/
def useFlat (rt : FRouter) (fn : Option MW) : FRouter :=
  { rt with
    errors := rt.errors ++ (if fn.isNone then [GoErr.nilUseF rt.strata.length] else []),
    strata := rt.strata ++ [⟨"", [], none, [], fn⟩] }

/-- Flat `Add`: validation errors (invalid method, nil handler, nil
middleware entries, duplicate), then the stratum is appended regardless.
`none` models a pattern-compilation panic. -/
def addFlat (rt : FRouter) (method pattern : String) (handler : Option HandlerF)
    (middleware : List (Option MW)) : Option FRouter :=
  let i := rt.strata.length
  let e1 := if methods.contains method then [] else [GoErr.invalidMethodF i method pattern]
  let e2 := if handler.isNone then [GoErr.nilHandlerF i method pattern] else []
  let e3 := (middleware.enum.filter fun p => p.2.isNone).map
    fun p => GoErr.nilMiddlewareF i p.1 method pattern
  let e4 := if isUniqueF rt method pattern then [] else [GoErr.dupRouteF i method pattern]
  match expandPatternF pattern with
  | none => none
  | some (segs, pErrs) =>
    some { rt with
      errors := rt.errors ++ e1 ++ e2 ++ e3 ++ e4 ++ pErrs,
      strata := rt.strata ++ [⟨method, segs, handler, middleware, none⟩] }

/-- Outcome of the per-route middleware loop.  `brokeCode` records the
`statusCode = code` assignment made on an error `break`; the surrounding
code never reads it again (the handler runs and `ServeHTTP` returns), so it
is dead — modelled but unused downstream, exactly as in the source. -/
inductive MwOut where
  | done (brokeCode : Option Int) (req : Req) (evs : List Ev) : MwOut
  | panicked (msg : String) (req : Req) (evs : List Ev) : MwOut

/-- The flat per-route middleware loop (`for _, mw := range s.middleware`):
on a non-nil error, store the error on the context and `break`; a nil
middleware entry panics when called. -/
def mwLoop : List (Option MW) → Nat → Req → MwOut
  | [], _, req => .done none req []
  | none :: _, _, req => .panicked "call of nil middleware" req []
  | some mw :: rest, i, req =>
    match mw req with
    | .error msg => .panicked msg req [Ev.mwRun i req.vars]
    | .ok ((code, some err), req') =>
      .done (some code) { req' with error := some err } [Ev.mwRun i req.vars]
    | .ok ((_, none), req') =>
      match mwLoop rest (i + 1) req' with
      | .done b r es => .done b r (Ev.mwRun i req.vars :: es)
      | .panicked m r es => .panicked m r (Ev.mwRun i req.vars :: es)

/-- Outcome of the flat strata loop: fell out of the loop (`break` or end)
carrying `statusCode`/`seenRoute`, returned after invoking a handler, or a
panic unwinding out of the loop. -/
inductive StrataOut where
  | fell (statusCode : Int) (seenRoute : Bool) (req : Req) (evs : List Ev) : StrataOut
  | returned (req : Req) (evs : List Ev) : StrataOut
  | panicked (msg : String) (req : Req) (evs : List Ev) : StrataOut

/-- The flat `ServeHTTP` strata loop (`for _, s := range rt.strata`).
After a pattern match: the middleware loop runs, then (regardless of a
middleware error) `request.Vars = vars`, the handler is invoked, and the
function returns. -/
def strataLoop (reqMethod : String) (reqPath : List String) :
    List Stratum → Nat → Req → StrataOut
  | [], _, req => .fell 0 false req []
  | s :: rest, i, req =>
    match s.call with
    | some c =>
      match c req with
      | .error msg => .panicked msg req [Ev.callRun i req.vars]
      | .ok ((code, some err), req') =>
        .fell code true { req' with error := some err } [Ev.callRun i req.vars]
      | .ok ((_, none), req') =>
        match strataLoop reqMethod reqPath rest (i + 1) req' with
        | .fell sc sr r es => .fell sc sr r (Ev.callRun i req.vars :: es)
        | .returned r es => .returned r (Ev.callRun i req.vars :: es)
        | .panicked m r es => .panicked m r (Ev.callRun i req.vars :: es)
    | none =>
      if s.method ≠ reqMethod then strataLoop reqMethod reqPath rest (i + 1) req
      else
        match pathsMatchF s.pattern reqPath with
        | (_, false) => strataLoop reqMethod reqPath rest (i + 1) req
        | (vars, true) =>
          match mwLoop s.middleware 0 req with
          | .panicked m r es => .panicked m r es
          | .done _ req' es =>
            let req'' := { req' with vars := vars }
            match s.handler with
            | none => .panicked "call of nil handler" req'' es
            | some h =>
              match h.act req'' with
              | .error msg =>
                .panicked msg req'' (es ++ [Ev.handlerRun h.hid req''.vars])
              | .ok reqF => .returned reqF (es ++ [Ev.handlerRun h.hid req''.vars])

/-- Result of a whole dispatch: the chronological events, the final request
context, and `propagated = some msg` when a panic escapes `ServeHTTP` to
its caller. -/
structure DispatchRes where
  events : List Ev
  req : Req
  propagated : Option String
deriving Repr

/-- The deferred-hook event(s) of a router configuration. -/
def defEvsF (rt : FRouter) : List Ev :=
  if rt.deferredHook then [Ev.deferredHook] else []

/-- Flat-variant `ServeHTTP`.  The recover-`defer` is installed
unconditionally and calls `recover()` unconditionally, so a panic never
propagates; the Recover hook (when present) receives the payload, and the
context's Error field is left untouched by recovery.  Go runs the deferred
functions in reverse order of installation: the recover closure first, the
Deferred hook last. -/
def serveFlat (rt : FRouter) (method path : String) : DispatchRes :=
  let req0 : Req :=
    { id := rt.idGen.getD "", vars := some [], status := 0, error := none }
  match rt.redirect with
  | some rd =>
    let (b, req1) := rd req0
    if b then ⟨[Ev.redirectHook] ++ defEvsF rt, req1, none⟩
    else serveFlatMain rt method path req1 [Ev.redirectHook]
  | none => serveFlatMain rt method path req0 []
where
  /-- The body after the redirect check: Before hook, strata loop, error
  reporting / bare status write, then the deferred functions. -/
  serveFlatMain (rt : FRouter) (method path : String) (req1 : Req)
      (evs0 : List Ev) : DispatchRes :=
    let evs1 := evs0 ++ (if rt.before then [Ev.beforeHook] else [])
    let reqPath := explodePath path
    match strataLoop method reqPath rt.strata 0 req1 with
    | .returned req evs => ⟨evs1 ++ evs ++ defEvsF rt, req, none⟩
    | .panicked m req evs =>
      let recEvs := if rt.recoverHook then [Ev.recoverHook m] else []
      ⟨evs1 ++ evs ++ recEvs ++ defEvsF rt, req, none⟩
    | .fell statusCode seenRoute req evs =>
      let statusCode := if !seenRoute then 404 else statusCode
      if rt.errorHook then
        let req' := { req with status := statusCode }
        ⟨evs1 ++ evs ++ [Ev.errorHook statusCode req'.error] ++ defEvsF rt, req', none⟩
      else
        ⟨evs1 ++ evs ++ [Ev.statusWrite statusCode] ++ defEvsF rt, req, none⟩

/-! ### Tree variant: route/group tree and dispatch
(router.go lines 101-339). -/

/-- The tree `route` struct: a route (`method`/`pattern`/`handler` set by
`add`), a group (`pattern`/`skip`/`unauthorized` set by `Group`, with
children in `children`), or a global-middleware entry (`useF` set by
`Use`).  `Use(nil)` appends a zero-valued node. -/
inductive RouteT where
  | node (method : String) (pattern : List Segment) (handler : Option HandlerF)
      (useF : Option (Req → Except String Req))
      (skipF : Option (Req → Bool)) (unauthF : Option (Req → Bool))
      (children : List RouteT) : RouteT

/-- The compiled pattern of a tree node. -/
def RouteT.patternOf : RouteT → List Segment
  | .node _ pat _ _ _ _ _ => pat

/-- The children of a tree node. -/
def RouteT.childrenOf : RouteT → List RouteT
  | .node _ _ _ _ _ _ ch => ch

/-- Outcome of `iterateRoutes`: the Go `(code int, match bool)` pair plus
the final request context and the ids of the handlers invoked (`log`), or a
panic unwinding out of the recursion. -/
inductive IterOut where
  | res (code : Int) (matched : Bool) (req : Req) (log : List Nat) : IterOut
  | panicked (msg : String) (req : Req) (log : List Nat) : IterOut
deriving DecidableEq, Repr

/-- The handler-invocation log of an outcome. -/
def IterOut.logOf : IterOut → List Nat
  | .res _ _ _ lg => lg
  | .panicked _ _ lg => lg

/-- Outcome of one `iterateRoutes` loop iteration: the loop either
finishes (a `return` statement) or goes on to the next entry (`continue`
or a failed recursion into children) with the possibly mutated context and
the handler invocations made so far. -/
inductive StepOut where
  | finish (out : IterOut) : StepOut
  | next (req : Req) (log : List Nat) : StepOut

mutual
/-- One iteration of the `iterateRoutes` loop (router.go 296-337) on entry
`r`: a `use` middleware runs and aborts on context error; a firing `skip`
guard bypasses the node; a method mismatch (for non-empty methods) or a
too-long pattern skips it; otherwise the pattern is prefix-matched,
`r.Vars` is overwritten with the captures, the `unauthorized` guard may set
the inherited flag (a local copy, so siblings are unaffected), and either
the node matches terminally (401 without invoking the handler when the flag
is set, else the handler runs) or the children are searched with the
remaining path and the flag, falling through to the next entry when the
subtree yields no match. -/
def iterStepT (reqMethod : String) : RouteT → List String → Bool → Req → StepOut
  | .node m pat h u sk ua ch, reqPath, unauth, req =>
    match u with
    | some uf =>
      match uf req with
      | .error msg => .finish (.panicked msg req [])
      | .ok req' =>
        if req'.error.isSome then .finish (.res req'.status true req' [])
        else .next req' []
    | none =>
      if (match sk with | some g => g req | none => false) then .next req []
      else if m != "" && m != reqMethod then .next req []
      else if reqPath.length < pat.length then .next req []
      else
        match pathsMatchT pat (reqPath.take pat.length) with
        | (_, false) => .next req []
        | (vars, true) =>
          let req1 := { req with vars := vars }
          let unauth' := unauth || (match ua with | some g => g req1 | none => false)
          if reqPath.drop pat.length == [] then
            if unauth' then .finish (.res 401 true req1 [])
            else
              match h with
              | none => .finish (.panicked "call of nil handler" req1 [])
              | some hf =>
                match hf.act req1 with
                | .error msg => .finish (.panicked msg req1 [hf.hid])
                | .ok req2 => .finish (.res 0 true req2 [hf.hid])
          else
            if !ch.isEmpty then
              match iterT reqMethod ch (reqPath.drop pat.length) unauth' req1 with
              | .panicked msg r lg => .finish (.panicked msg r lg)
              | .res c mtd r lg =>
                if mtd then .finish (.res c mtd r lg)
                else .next r lg
            else .next req1 []

/-- `iterateRoutes` (router.go 286-339): fold `iterStepT` over the route
list, accumulating the handler log of failed subtrees. -/
def iterT (reqMethod : String) : List RouteT → List String → Bool → Req → IterOut
  | [], _, _, req => .res 0 false req []
  | r :: rest, reqPath, unauth, req =>
    match iterStepT reqMethod r reqPath unauth req with
    | .finish out => out
    | .next req' lg =>
      match iterT reqMethod rest reqPath unauth req' with
      | .res c m2 r2 lg2 => .res c m2 r2 (lg ++ lg2)
      | .panicked m2 r2 lg2 => .panicked m2 r2 (lg ++ lg2)
end

/-- The tree `Router` (options of `New` plus the root route list). -/
structure TRouter where
  root : List RouteT
  errors : List GoErr
  /-- `seenRoute`: nothing in the source ever writes to this map (`New`
  does not allocate it and `add` only reads it), so it stays empty. -/
  seenKeys : List String
  before : Option (Req → Req)
  errorHook : Bool
  recoverHook : Bool
  deferredHook : Bool
  idGen : Option String

/-- `New`: a zero-valued tree router. -/
def emptyT : TRouter := ⟨[], [], [], none, false, false, false, none⟩

/-- Tree `add` (router.go 195-221): nil-handler and duplicate checks append
errors, then the route is appended regardless.  The duplicate check reads
`seenRoute`, which is never populated anywhere in the source, so it can
never fire.  `none` models a pattern-compilation panic. -/
def addT (rt : TRouter) (method pattern : String) (handler : Option HandlerF) :
    Option TRouter :=
  let e1 := if handler.isNone then [GoErr.nilHandlerT method pattern] else []
  let e2 := if rt.seenKeys.contains (method ++ pattern) then
    [GoErr.dupRouteT method pattern] else []
  match expandPatternT pattern with
  | none => none
  | some (segs, pErrs) =>
    some { rt with
      errors := rt.errors ++ e1 ++ e2 ++ pErrs,
      root := rt.root ++ [.node method segs handler none none none []] }

/-- Tree `Use`: appends `route{use: handler}` (a zero-valued node when the
function is nil, after recording an error). -/
def useT (rt : TRouter) (fn : Option (Req → Except String Req)) : TRouter :=
  { rt with
    errors := rt.errors ++ (if fn.isNone then [GoErr.nilUseT] else []),
    root := rt.root ++ [.node "" [] none fn none none []] }

/-- Tree `Group` followed by child registrations: a node with the compiled
prefix pattern, the two guards, and the nested children; the compilation
errors go to `rt.Errors`. -/
def groupNodeT (pattern : String) (skipF unauthF : Option (Req → Bool))
    (children : List RouteT) : Option (RouteT × List GoErr) :=
  (expandPatternT pattern).map fun p =>
    (.node "" p.1 none none skipF unauthF children, p.2)

/-- The deferred-hook event(s) of a tree router configuration. -/
def defEvsT (rt : TRouter) : List Ev :=
  if rt.deferredHook then [Ev.deferredHook] else []

/-- Tree-variant `ServeHTTP` (router.go 233-280).  The Deferred hook is
deferred first and therefore runs last; the recover closure is installed
only when a Recover hook is configured, so without one a panic propagates
to the caller (the Deferred hook still runs during unwinding).  With a
Recover hook, the panic payload is recorded as the context's error and the
hook runs.  A redirect-class status set by `Before` halts dispatch.  On a
final status `>= 400` with an Error hook configured, a nil `Vars` map is
replaced by an empty one, the status is stored, and the hook runs; the
tree variant never writes a bare status itself. -/
def serveTree (rt : TRouter) (method path : String) : DispatchRes :=
  let req0 : Req :=
    { id := rt.idGen.getD "", vars := some [], status := 0, error := none }
  let (req1, evs1) :=
    match rt.before with
    | some b => (b req0, [Ev.beforeHook])
    | none => (req0, ([] : List Ev))
  if rt.before.isSome ∧ 300 ≤ req1.status ∧ req1.status < 400 then
    ⟨evs1 ++ defEvsT rt, req1, none⟩
  else
    match iterT method rt.root (explodePath path) false req1 with
    | .panicked msg req lg =>
      let evsH := evs1 ++ lg.map Ev.treeHandlerRun
      if rt.recoverHook then
        ⟨evsH ++ [Ev.recoverHook msg] ++ defEvsT rt, { req with error := some msg }, none⟩
      else
        ⟨evsH ++ defEvsT rt, req, some msg⟩
    | .res code matched req lg =>
      let code := if !matched then 404 else code
      let evsH := evs1 ++ lg.map Ev.treeHandlerRun
      if code ≥ 400 ∧ rt.errorHook then
        let req' := { req with
          vars := if req.vars.isNone then some [] else req.vars, status := code }
        ⟨evsH ++ [Ev.errorHook code req'.error] ++ defEvsT rt, req', none⟩
      else
        ⟨evsH ++ defEvsT rt, req, none⟩

/-- The flat-variant handler invocations recorded in an event list. -/
def handlerRunsOf (evs : List Ev) : List Nat :=
  evs.filterMap fun e =>
    match e with
    | .handlerRun h _ => some h
    | _ => none

/-- The tree-variant handler invocations recorded in an event list. -/
def treeRunsOf (evs : List Ev) : List Nat :=
  evs.filterMap fun e =>
    match e with
    | .treeHandlerRun h => some h
    | _ => none

/-! ### Derived observers and predicates used by the statements. -/

/-- The events generated by a middleware-loop outcome. -/
def MwOut.evsOf : MwOut → List Ev
  | .done _ _ es => es
  | .panicked _ _ es => es

/-- The events generated by a strata-loop outcome. -/
def StrataOut.evsOf : StrataOut → List Ev
  | .fell _ _ _ es => es
  | .returned _ es => es
  | .panicked _ _ es => es

/-- The `code` of an `iterateRoutes` outcome (a panic returns none, coded 0). -/
def IterOut.codeOf : IterOut → Int
  | .res c _ _ _ => c
  | .panicked _ _ _ => 0

/-- The `match` flag of an `iterateRoutes` outcome (a panic returns none). -/
def IterOut.matchedOf : IterOut → Bool
  | .res _ m _ _ => m
  | .panicked _ _ _ => false

/-- The index of the first stratum that is a route (not a `Use` entry)
whose method equals the request method and whose pattern matches the
exploded request path — the stratum the flat loop dispatches to when the
scan reaches it. -/
def firstMatchIdxF (m : String) (reqPath : List String) : List Stratum → Option Nat
  | [] => none
  | s :: rest =>
    if s.call.isNone && s.method == m && (pathsMatchF s.pattern reqPath).2 then some 0
    else (firstMatchIdxF m reqPath rest).map (· + 1)

mutual
/-- The tree contains no `Use` (global-middleware) entries. -/
def noUseB : RouteT → Bool
  | .node _ _ _ u _ _ ch => u.isNone && noUseList ch
/-- `noUseB` over a route list. -/
def noUseList : List RouteT → Bool
  | [] => true
  | r :: rs => noUseB r && noUseList rs
end

mutual
/-- The tree node holds no `Use` entry and no `skip`/`unauthorized` guard
anywhere, so the search outcome is determined by methods and patterns
alone.  Nested groups with `nil` guards are included. -/
def plainB : RouteT → Bool
  | .node _ _ _ u sk ua ch =>
    u.isNone && sk.isNone && ua.isNone && plainList ch
/-- `plainB` over a route list. -/
def plainList : List RouteT → Bool
  | [] => true
  | r :: rs => plainB r && plainList rs
end

mutual
/-- First terminal match of the depth-first search on one guard-free tree
node: the node is considered when its method matches (non-empty methods)
and its pattern prefix-matches the request path; it matches terminally
when no path remains, else its children are searched with the remaining
path.  `some (some hid)` = the first terminal match carries handler `hid`;
`some none` = the first terminal match is a node with no handler (the
dispatch panics there); `none` = no terminal match in this subtree. -/
def firstMatchRouteT (m : String) : RouteT → List String → Option (Option Nat)
  | .node mm pat h _ _ _ ch, reqPath =>
    if mm != "" && mm != m then none
    else if reqPath.length < pat.length then none
    else if !(pathsMatchT pat (reqPath.take pat.length)).2 then none
    else if reqPath.drop pat.length == [] then some (h.map HandlerF.hid)
    else firstMatchT m ch (reqPath.drop pat.length)

/-- The first terminal match of a route list, in registration order. -/
def firstMatchT (m : String) : List RouteT → List String → Option (Option Nat)
  | [], _ => none
  | r :: rest, reqPath =>
    match firstMatchRouteT m r reqPath with
    | some sel => some sel
    | none => firstMatchT m rest reqPath
end

/-- A middleware value that leaves the `Vars` field of the context alone
(on normal return). -/
def mwPreservesVars (mw : MW) : Prop :=
  ∀ req out, mw req = .ok out → out.2.vars = req.vars

/-- All middleware reachable from a stratum preserve `Vars`. -/
def stratumPreserves (s : Stratum) : Prop :=
  (∀ mw, some mw ∈ s.middleware → mwPreservesVars mw) ∧
  (∀ mw, s.call = some mw → mwPreservesVars mw)

/-! ### Concrete handlers, middleware and routers used in the
closed statements and witnesses. -/

/-- A handler that records its invocation and leaves the context alone. -/
def idHandler (n : Nat) : HandlerF := ⟨n, fun r => .ok r⟩

/-- A handler that raises a runtime fault. -/
def panicHandler (n : Nat) (msg : String) : HandlerF := ⟨n, fun _ => .error msg⟩

/-- Middleware returning `(0, nil)`. -/
def mwNoop : MW := fun r => .ok ((0, none), r)

/-- Middleware returning `(500, error)`. -/
def mwErr500 : MW := fun r => .ok ((500, some "boom"), r)

/-- Flat router with an Error hook and one route `GET /x` whose middleware
list is `[mwErr500, mwNoop]`. -/
def c2Router : Option FRouter :=
  addFlat { emptyF with errorHook := true } "GET" "/x" (some (idHandler 1))
    [some mwErr500, some mwNoop]

/-- Flat router registering `GET /a/:x` (handler 1) then `GET /a/literal`
(handler 2). -/
def c3FlatRouter : Option FRouter :=
  (addFlat emptyF "GET" "/a/:x" (some (idHandler 1)) []).bind fun r =>
    addFlat r "GET" "/a/literal" (some (idHandler 2)) []

/-- Tree router registering `GET /a/:x` (handler 1) then `GET /a/literal`
(handler 2). -/
def c3TreeRouter : Option TRouter :=
  (addT emptyT "GET" "/a/:x" (some (idHandler 1))).bind fun r =>
    addT r "GET" "/a/literal" (some (idHandler 2))

/-- Tree router registering `GET /ping` twice. -/
def c5TreeRouter : Option TRouter :=
  (addT emptyT "GET" "/ping" (some (idHandler 1))).bind fun r =>
    addT r "GET" "/ping" (some (idHandler 2))

/-- Flat router registering `GET /ping` twice. -/
def c5FlatRouter : Option FRouter :=
  (addFlat emptyF "GET" "/ping" (some (idHandler 1)) []).bind fun r =>
    addFlat r "GET" "/ping" (some (idHandler 2)) []

/-- A group whose `unauthorized` guard always fires, holding one child
route `GET x` (handler 7). -/
def c6Routes : List RouteT :=
  [.node "" [⟨"admin", "", some ["admin"]⟩] none none none (some fun _ => true)
    [.node "GET" [⟨"x", "", some ["x"]⟩] (some (idHandler 7)) none none none []]]

/-- Tree router with the always-unauthorized group, Error and Deferred hooks. -/
def c6Router : TRouter :=
  { emptyT with root := c6Routes, errorHook := true, deferredHook := true }

/-- The dispatch-start request context. -/
def req0 : Req := { id := "", vars := some [], status := 0, error := none }

/-- Tree router (no Recover hook) whose `GET /x` handler panics. -/
def c7TreeNoRec : TRouter :=
  { emptyT with
    root := [.node "GET" [⟨"x", "", some ["x"]⟩] (some (panicHandler 1 "boom"))
      none none none []],
    deferredHook := true }

/-- Same tree router with a Recover hook. -/
def c7TreeRec : TRouter := { c7TreeNoRec with recoverHook := true }

/-- Flat router (Recover + Deferred hooks) whose `GET /x` handler panics. -/
def c7Flat : FRouter :=
  { emptyF with
    strata := [⟨"GET", [⟨"x", "", some ["x"]⟩], some (panicHandler 1 "boom"), [], none⟩],
    deferredHook := true, recoverHook := true }

/-- Flat router with one route `GET /a/:x` carrying two no-op middleware. -/
def c10Router : FRouter :=
  { emptyF with
    strata := [⟨"GET", [⟨"a", "", some ["a"]⟩, ⟨":x", "x", none⟩], some (idHandler 3),
      [some mwNoop, some mwNoop], none⟩] }

/-- The tree router after one registration `GET /a` (handler 1). -/
def c9Tree1 : TRouter :=
  { emptyT with root := [.node "GET" [⟨"a", "", some ["a"]⟩] (some (idHandler 1)) none none none []] }

/-- The tree router after registering `GET /a` a second time (handler 2). -/
def c9Tree2 : TRouter :=
  { c9Tree1 with root := c9Tree1.root ++ [.node "GET" [⟨"a", "", some ["a"]⟩] (some (idHandler 2)) none none none []] }

/-- The flat router after one registration `GET /a` (handler 1). -/
def c9Flat1 : FRouter :=
  { emptyF with strata := [⟨"GET", [⟨"a", "", some ["a"]⟩], some (idHandler 1), [], none⟩] }

/-- The flat router after registering `GET /a` a second time (handler 2):
the duplicate error is recorded, the stratum appended. -/
def c9Flat2 : FRouter :=
  { c9Flat1 with
    strata := c9Flat1.strata ++ [⟨"GET", [⟨"a", "", some ["a"]⟩], some (idHandler 2), [], none⟩],
    errors := [GoErr.dupRouteF 1 "GET" "/a"] }

/-! ## Claim theorems -/

/-- C4: for every compiled pattern and exploded request path whose segment
counts differ, both matcher variants return `matched = false` with no
bindings (`nil` vars). -/
theorem claim_C4_length_mismatch_rejects (pattern : List Segment)
    (reqPath : List String) (h : pattern.length ≠ reqPath.length) :
    pathsMatchT pattern reqPath = (none, false) ∧
    pathsMatchF pattern reqPath = (none, false) := by
  unfold pathsMatchT pathsMatchF
  simp [h]

/-- Witness for C4 at a concrete length mismatch. -/
theorem claim_C4_witness :
    pathsMatchT [] ["a"] = (none, false) ∧ pathsMatchF [] ["a"] = (none, false) :=
  claim_C4_length_mismatch_rejects [] ["a"] (by decide)

/-- C8: the empty pattern compiles (tree `expandPattern`) to zero segments
with no errors, and a zero-length compiled pattern matches a request path
iff the exploded path has zero segments; in particular it matches no
non-empty exploded path. -/
theorem claim_C8_empty_pattern :
    expandPatternT "" = some ([], []) ∧
    (∀ p : List String, (pathsMatchT [] p).2 = true ↔ p = []) ∧
    (∀ p : List String, p ≠ [] → (pathsMatchT [] p).2 = false) := by
  refine ⟨by decide, ?_, ?_⟩
  · intro p
    cases p with
    | nil => simp [pathsMatchT, pmLoopT]
    | cons a as => simp [pathsMatchT]
  · intro p hp
    cases p with
    | nil => exact absurd rfl hp
    | cons a as => simp [pathsMatchT]

/-- Witness for C8 at the concrete paths `["a"]` and `[]`. -/
theorem claim_C8_witness :
    (pathsMatchT [] ["a"]).2 = false ∧
    ((pathsMatchT [] ([] : List String)).2 = true ↔ ([] : List String) = []) :=
  ⟨claim_C8_empty_pattern.2.2 ["a"] (by decide), claim_C8_empty_pattern.2.1 []⟩

/-- C1 is false on the code: the segment `[b,^b]` (an inclusion entry for
`b` before an exclusion entry for `b`) matched against value `b` succeeds,
because the scan `break`s at the first matching inclusion entry and never
reaches the later exclusion. -/
theorem claim_C1_counterexample :
    expandPatternF "[b,^b]" = some ([⟨"[b,^b]", "", some ["b", "^b"]⟩], []) ∧
    pathsMatchF [⟨"[b,^b]", "", some ["b", "^b"]⟩] ["b"] = (none, true) := by
  exact ⟨by decide, by decide⟩

/-- C2 evaluated at the failing input: a route `GET /x` with middleware
`[mwErr500, mwNoop]` and an Error hook configured.  The middleware error
stops the rest of the middleware list (no `mwRun 1`), but the handler is
still invoked and the Error hook never runs (no `errorHook` event), while
the error is stored on the context. -/
theorem claim_C2_middleware_error_still_runs_handler :
    c2Router.map (fun r => (serveFlat r "GET" "/x").events) =
      some [Ev.mwRun 0 (some []), Ev.handlerRun 1 none] ∧
    c2Router.map (fun r => (serveFlat r "GET" "/x").req.error) =
      some (some "boom") := by
  exact ⟨by decide, by decide⟩

/-- C5 evaluated on both variants: registering `GET /ping` twice appends
no error at all in the tree variant (its `seenRoute` set is never
populated), while the flat variant appends exactly one error naming the
method and pattern; in both variants the duplicate is still registered and
dispatch invokes the handler of the first registration. -/
theorem claim_C5_duplicate_registration :
    c5TreeRouter.map TRouter.errors = some [] ∧
    c5FlatRouter.map FRouter.errors = some [GoErr.dupRouteF 1 "GET" "/ping"] ∧
    c5FlatRouter.map (fun r => handlerRunsOf (serveFlat r "GET" "/ping").events) =
      some [1] ∧
    c5TreeRouter.map (fun r => treeRunsOf (serveTree r "GET" "/ping").events) =
      some [1] := by
  exact ⟨by decide, by decide, by decide, by decide⟩

/-- The flat matcher scan returns the veto (`nil, false` for the whole
path) when the entry list contains an exclusion entry for the value that
is reached before any matching inclusion entry. -/
theorem scanMatchesF_of_veto (ms : List String) (v : String)
    (h : vetoesBeforeIncl ms v = true) : scanMatchesF ms v = none := by
  induction ms with
  | nil => simp [vetoesBeforeIncl] at h
  | cons m rest ih =>
    unfold vetoesBeforeIncl at h
    unfold scanMatchesF
    by_cases hc : hasCaret m
    · simp only [hc, if_true] at h ⊢
      by_cases hs : (caretSuffix m == v) = true
      · simp [hs]
      · simp only [hs, Bool.false_or, if_false] at h ⊢
        simp only [Bool.not_eq_true] at hs
        simp [hs]
        exact ih h
    · simp only [Bool.not_eq_true] at hc
      simp only [hc, if_false] at h ⊢
      by_cases hv : (m == v) = true
      · simp [hv] at h
      · simp only [Bool.not_eq_true] at hv
        simp only [hv, if_false] at h ⊢
        exact ih h

/-- If some position of the zipped pattern/path carries a segment whose
entry scan vetoes its value, the whole `pathsMatch` loop returns `nil`. -/
theorem pmLoopF_none_of_scan_none :
    ∀ (pattern : List Segment) (reqPath : List String) (vars : VarsList) (i : Nat)
      (seg : Segment) (v : String) (ms : List String),
      pattern[i]? = some seg → reqPath[i]? = some v →
      seg.matchList = some ms → scanMatchesF ms v = none →
      pmLoopF (pattern.zip reqPath) vars = none := by
  intro pattern
  induction pattern with
  | nil => intro reqPath vars i seg v ms h1; simp at h1
  | cons s ps ih =>
    intro reqPath vars i seg v ms h1 h2 h3 h4
    cases reqPath with
    | nil => simp at h2
    | cons r rs =>
      cases i with
      | zero =>
        simp at h1 h2
        subst h1; subst h2
        unfold pmLoopF
        simp [List.zip_cons_cons, h3, h4]
      | succ n =>
        simp at h1 h2
        simp only [List.zip_cons_cons]
        unfold pmLoopF
        cases hm : s.matchList with
        | none => simpa using ih rs _ n seg v ms h1 h2 h3 h4
        | some ms0 =>
          cases hs : scanMatchesF ms0 r with
          | none => simp [hs]
          | some b =>
            cases b with
            | false => simp [hs]
            | true => simpa [hs] using ih rs _ n seg v ms h1 h2 h3 h4

/-- C1 amended: an exclusion entry for the request segment value rejects
the entire path match exactly when the scan reaches it, i.e. when no
inclusion entry equal to the value occurs earlier in the entry list; an
already-satisfied inclusion stops the scan, so an exclusion listed after
it is not reached (e.g. `[^b,b]` against `b` rejects, while `[b,^b]`
against `b` matches — see the counterexample). -/
theorem claim_C1_exclusion_scan_order :
    (∀ (pattern : List Segment) (reqPath : List String) (i : Nat)
        (seg : Segment) (v : String) (ms : List String),
        pattern[i]? = some seg → reqPath[i]? = some v →
        seg.matchList = some ms → vetoesBeforeIncl ms v = true →
        (pathsMatchF pattern reqPath).2 = false) ∧
    pathsMatchF [⟨"[^b,b]", "", some ["^b", "b"]⟩] ["b"] = (none, false) := by
  constructor
  · intro pattern reqPath i seg v ms h1 h2 h3 hveto
    unfold pathsMatchF
    by_cases hl : pattern.length = reqPath.length
    · simp only [hl, ne_eq, not_true_eq_false, if_false]
      rw [pmLoopF_none_of_scan_none pattern reqPath [] i seg v ms h1 h2 h3
        (scanMatchesF_of_veto ms v hveto)]
    · simp [hl]
  · decide

/-- Witness for C1 (amended) at the concrete segment `[^b,b]` and value `b`. -/
theorem claim_C1_witness :
    vetoesBeforeIncl ["^b", "b"] "b" = true ∧
    (pathsMatchF [⟨"[^b,b]", "", some ["^b", "b"]⟩] ["b"]).2 = false :=
  ⟨by decide, claim_C1_exclusion_scan_order.1
    [⟨"[^b,b]", "", some ["^b", "b"]⟩] ["b"] 0
    ⟨"[^b,b]", "", some ["^b", "b"]⟩ "b" ["^b", "b"]
    (by decide) (by decide) (by decide) (by decide)⟩

/-- Any outcome of the flat `serveFlat` body (after the redirect check)
carries no propagated panic: the recover closure is unconditional. -/
theorem serveFlatMain_no_prop (rt : FRouter) (m p : String) (req : Req) (evs : List Ev) :
    (serveFlat.serveFlatMain rt m p req evs).propagated = none := by
  unfold serveFlat.serveFlatMain
  simp only []
  cases h : strataLoop m (explodePath p) rt.strata 0 req with
  | returned r es => simp [h]
  | panicked msg r es => simp [h]
  | fell sc sr r es =>
    simp only [h]
    split <;> rfl

/-- Flat `ServeHTTP` never propagates a panic to its caller. -/
theorem serveFlat_no_prop (rt : FRouter) (m p : String) :
    (serveFlat rt m p).propagated = none := by
  unfold serveFlat
  cases hrd : rt.redirect with
  | none => exact serveFlatMain_no_prop ..
  | some rd =>
    simp only []
    cases h : rd { id := rt.idGen.getD "", vars := some [], status := 0, error := none } with
    | mk b req1 =>
      by_cases hb : b = true
      · simp [h, hb]
      · simp only [h, hb, if_false, Bool.false_eq_true]
        exact serveFlatMain_no_prop ..

/-- Tree `ServeHTTP` does not propagate a panic when a Recover hook is
configured (the recover closure is installed only in that case). -/
theorem serveTree_no_prop_of_recover (rt : TRouter) (m p : String)
    (h : rt.recoverHook = true) : (serveTree rt m p).propagated = none := by
  unfold serveTree
  cases hb : rt.before with
  | some b =>
    simp only []
    split
    · rfl
    · split <;> simp [apply_ite DispatchRes.propagated, h]
  | none =>
    simp only []
    split
    · rfl
    · split <;> simp [apply_ite DispatchRes.propagated, h]

/-- C7 amended: the flat variant catches every fault (its recover-defer is
unconditional), never recording it on the context; the tree variant
catches faults only when a Recover hook is configured, and then records the
payload as the context error, runs the Recover hook and still runs the
Deferred hook afterwards.  (Without a Recover hook the tree variant lets
the fault propagate — see the counterexample.) -/
theorem claim_C7_panic_isolation_amended :
    (∀ (rt : FRouter) (m p : String), (serveFlat rt m p).propagated = none) ∧
    (∀ (rt : TRouter) (m p : String), rt.recoverHook = true →
      (serveTree rt m p).propagated = none) ∧
    (serveTree c7TreeRec "GET" "/x").events =
      [Ev.treeHandlerRun 1, Ev.recoverHook "boom", Ev.deferredHook] ∧
    (serveTree c7TreeRec "GET" "/x").req.error = some "boom" ∧
    (serveFlat c7Flat "GET" "/x").events =
      [Ev.handlerRun 1 none, Ev.recoverHook "boom", Ev.deferredHook] ∧
    (serveFlat c7Flat "GET" "/x").req.error = none :=
  ⟨serveFlat_no_prop, serveTree_no_prop_of_recover, by decide, by decide, by decide,
    by decide⟩

/-- C7 is false on the code as stated: in the tree variant with no Recover
hook configured, a handler fault propagates out of `ServeHTTP` to its
caller (the Deferred hook still fires during unwinding). -/
theorem claim_C7_counterexample :
    (serveTree c7TreeNoRec "GET" "/x").propagated = some "boom" ∧
    (serveTree c7TreeNoRec "GET" "/x").events =
      [Ev.treeHandlerRun 1, Ev.deferredHook] :=
  ⟨by decide, by decide⟩

/-- Witness for C7 (amended) at the tree router with a Recover hook. -/
theorem claim_C7_witness :
    c7TreeRec.recoverHook = true ∧
    (serveTree c7TreeRec "GET" "/x").propagated = none :=
  ⟨rfl, claim_C7_panic_isolation_amended.2.1 c7TreeRec "GET" "/x" rfl⟩

/-- C9: pattern compilation depends only on the pattern string — the
accumulated error state and previously registered routes of the router do
not influence the compiled segment list, so registering the same pattern
twice (in either variant) appends two routes with structurally identical
compiled patterns (same length, raw text, variable names and match-entry
lists, in order). -/
theorem claim_C9_idempotent_compilation :
    (∀ (rt : TRouter) (method p : String) (h1 h2 : Option HandlerF) (r1 r2 : TRouter),
        addT rt method p h1 = some r1 → addT r1 method p h2 = some r2 →
        (r1.root.getLast?).map RouteT.patternOf =
          (r2.root.getLast?).map RouteT.patternOf) ∧
    (∀ (rt : FRouter) (method p : String) (h1 h2 : Option HandlerF)
        (mw1 mw2 : List (Option MW)) (r1 r2 : FRouter),
        addFlat rt method p h1 mw1 = some r1 → addFlat r1 method p h2 mw2 = some r2 →
        (r1.strata.getLast?).map Stratum.pattern =
          (r2.strata.getLast?).map Stratum.pattern) := by
  constructor
  · intro rt method p h1 h2 r1 r2 ha hb
    unfold addT at ha hb
    cases hE : expandPatternT p with
    | none => rw [hE] at ha; exact absurd ha (by simp)
    | some pr =>
      obtain ⟨segs, perrs⟩ := pr
      rw [hE] at ha hb
      simp only [Option.some.injEq] at ha hb
      subst ha; subst hb
      simp [List.getLast?_concat, RouteT.patternOf]
  · intro rt method p h1 h2 mw1 mw2 r1 r2 ha hb
    unfold addFlat at ha hb
    cases hE : expandPatternF p with
    | none => rw [hE] at ha; exact absurd ha (by simp)
    | some pr =>
      obtain ⟨segs, perrs⟩ := pr
      rw [hE] at ha hb
      simp only [Option.some.injEq] at ha hb
      subst ha; subst hb
      simp [List.getLast?_concat]

/-- Witness for C9: registering `GET /a` twice on each variant. -/
theorem claim_C9_witness :
    (c9Tree1.root.getLast?).map RouteT.patternOf =
      (c9Tree2.root.getLast?).map RouteT.patternOf ∧
    (c9Flat1.strata.getLast?).map Stratum.pattern =
      (c9Flat2.strata.getLast?).map Stratum.pattern :=
  ⟨claim_C9_idempotent_compilation.1 emptyT "GET" "/a" (some (idHandler 1))
      (some (idHandler 2)) c9Tree1 c9Tree2 rfl rfl,
    claim_C9_idempotent_compilation.2 emptyF "GET" "/a" (some (idHandler 1))
      (some (idHandler 2)) [] [] c9Flat1 c9Flat2 rfl rfl⟩



theorem iterStepT_true_log (m : String) (r : RouteT) (p : List String) (q : Req)
    (hch : ∀ p2 q2, (iterT m r.childrenOf p2 true q2).logOf = []) :
    (∀ out, iterStepT m r p true q = .finish out → out.logOf = []) ∧
    (∀ q' lg, iterStepT m r p true q = .next q' lg → lg = []) := by
  obtain ⟨mm, pat, h, u, sk, ua, ch⟩ := r
  simp only [RouteT.childrenOf] at hch
  constructor
  · intro out hout
    rw [iterStepT.eq_def] at hout
    simp only [Bool.true_or] at hout
    split at hout
    · split at hout
      · cases hout; simp [IterOut.logOf]
      · split at hout
        · cases hout; simp [IterOut.logOf]
        · cases hout
    · split at hout
      · cases hout
      · split at hout
        · cases hout
        · split at hout
          · cases hout
          · split at hout
            · cases hout
            · split at hout
              · split at hout
                · cases hout; simp [IterOut.logOf]
                · simp_all
              · split at hout
                · split at hout
                  · rename_i heq
                    cases hout
                    have h5 := congrArg IterOut.logOf heq
                    rw [hch] at h5
                    simp [IterOut.logOf] at h5
                    exact h5
                  · split at hout
                    · rename_i heq h6
                      cases hout
                      have h5 := congrArg IterOut.logOf heq
                      rw [hch] at h5
                      simp [IterOut.logOf] at h5
                      exact h5
                    · cases hout
                · cases hout
  · intro q' lg hnext
    rw [iterStepT.eq_def] at hnext
    simp only [Bool.true_or] at hnext
    split at hnext
    · split at hnext
      · cases hnext
      · split at hnext
        · cases hnext
        · cases hnext; rfl
    · split at hnext
      · cases hnext; rfl
      · split at hnext
        · cases hnext; rfl
        · split at hnext
          · cases hnext; rfl
          · split at hnext
            · cases hnext; rfl
            · split at hnext
              · split at hnext
                · cases hnext
                · simp_all
              · split at hnext
                · split at hnext
                  · cases hnext
                  · split at hnext
                    · cases hnext
                    · rename_i heq h6
                      cases hnext
                      have h5 := congrArg IterOut.logOf heq
                      rw [hch] at h5
                      simp [IterOut.logOf] at h5
                      exact h5
                · cases hnext; rfl

theorem iterT_true_log_aux (m : String) :
    ∀ (n : Nat) (l : List RouteT), sizeOf l ≤ n →
      ∀ (p : List String) (q : Req), (iterT m l p true q).logOf = [] := by
  intro n
  induction n with
  | zero =>
    intro l hl p q
    cases l with
    | nil => rfl
    | cons r rest => cases r; simp at hl
  | succ k ih =>
    intro l hl p q
    cases l with
    | nil => rfl
    | cons r rest =>
      obtain ⟨mm, pat, h, u, sk, ua, ch⟩ := r
      have hrest : sizeOf rest ≤ k := by simp at hl; omega
      have hchs : sizeOf ch ≤ k := by simp at hl; omega
      have hstep := iterStepT_true_log m (.node mm pat h u sk ua ch) p q
        (fun p2 q2 => ih ch hchs p2 q2)
      rw [iterT]
      cases hs : iterStepT m (.node mm pat h u sk ua ch) p true q with
      | finish out => exact hstep.1 out hs
      | next q' lg =>
        have hlg := hstep.2 q' lg hs
        subst hlg
        have htail := ih rest hrest p q'
        cases ht : iterT m rest p true q' with
        | res c m2 r2 lg2 =>
          rw [ht] at htail
          simp only [ht]
          simpa [IterOut.logOf] using htail
        | panicked m2 r2 lg2 =>
          rw [ht] at htail
          simp only [ht]
          simpa [IterOut.logOf] using htail

theorem iterT_true_log (m : String) (l : List RouteT) (p : List String) (q : Req) :
    (iterT m l p true q).logOf = [] :=
  iterT_true_log_aux m (sizeOf l) l le_rfl p q



theorem iterStepT_log_struct (m : String) (r : RouteT) (p : List String) (u : Bool) (q : Req)
    (hch : ∀ (p2 : List String) (u2 : Bool) (q2 : Req) (out : IterOut),
        iterT m r.childrenOf p2 u2 q2 = out →
        out.logOf.length ≤ 1 ∧ ∀ c r2 lg, out = .res c false r2 lg → lg = []) :
    (∀ out, iterStepT m r p u q = .finish out →
        out.logOf.length ≤ 1 ∧ ∀ c r2 lg, out = .res c false r2 lg → lg = []) ∧
    (∀ q' lg, iterStepT m r p u q = .next q' lg → lg = []) := by
  obtain ⟨mm, pat, h, u0, sk, ua, ch⟩ := r
  simp only [RouteT.childrenOf] at hch
  constructor
  · intro out hout
    rw [iterStepT.eq_def] at hout
    simp only [] at hout
    split at hout
    · split at hout
      · cases hout
        exact ⟨by simp [IterOut.logOf], fun c r2 lg hh => by cases hh⟩
      · split at hout
        · cases hout
          exact ⟨by simp [IterOut.logOf], fun c r2 lg hh => by cases hh⟩
        · cases hout
    · split at hout
      · cases hout
      · split at hout
        · cases hout
        · split at hout
          · cases hout
          · split at hout
            · cases hout
            · split at hout
              · split at hout
                · cases hout
                  exact ⟨by simp [IterOut.logOf], fun c r2 lg hh => by cases hh⟩
                · split at hout
                  · cases hout
                    exact ⟨by simp [IterOut.logOf], fun c r2 lg hh => by cases hh⟩
                  · split at hout
                    · cases hout
                      exact ⟨by simp [IterOut.logOf], fun c r2 lg hh => by cases hh⟩
                    · cases hout
                      exact ⟨by simp [IterOut.logOf], fun c r2 lg hh => by cases hh⟩
              · split at hout
                · split at hout
                  · rename_i heq
                    cases hout
                    have h5 := hch _ _ _ _ heq
                    exact ⟨by simpa [IterOut.logOf] using h5.1, fun c r2 lg hh => by cases hh⟩
                  · split at hout
                    · rename_i heq h6
                      subst h6
                      cases hout
                      have h5 := hch _ _ _ _ heq
                      exact ⟨by simpa [IterOut.logOf] using h5.1, fun c r2 lg hh => by cases hh⟩
                    · cases hout
                · cases hout
  · intro q' lg hnext
    rw [iterStepT.eq_def] at hnext
    simp only [] at hnext
    split at hnext
    · split at hnext
      · cases hnext
      · split at hnext
        · cases hnext
        · cases hnext; rfl
    · split at hnext
      · cases hnext; rfl
      · split at hnext
        · cases hnext; rfl
        · split at hnext
          · cases hnext; rfl
          · split at hnext
            · cases hnext; rfl
            · split at hnext
              · split at hnext
                · cases hnext
                · split at hnext
                  · cases hnext
                  · split at hnext
                    · cases hnext
                    · cases hnext
              · split at hnext
                · split at hnext
                  · cases hnext
                  · split at hnext
                    · cases hnext
                    · rename_i heq h6
                      simp only [Bool.not_eq_true] at h6
                      subst h6
                      cases hnext
                      have h5 := hch _ _ _ _ heq
                      exact h5.2 _ _ _ rfl
                · cases hnext; rfl

theorem iterT_log_struct_aux (m : String) :
    ∀ (n : Nat) (l : List RouteT), sizeOf l ≤ n →
      ∀ (p : List String) (u : Bool) (q : Req),
        ((iterT m l p u q).logOf.length ≤ 1) ∧
        (∀ c r2 lg, iterT m l p u q = .res c false r2 lg → lg = []) := by
  intro n
  induction n with
  | zero =>
    intro l hl p u q
    cases l with
    | nil => exact ⟨by simp [iterT, IterOut.logOf], fun c r2 lg hh => by cases hh; rfl⟩
    | cons r rest => cases r; simp at hl
  | succ k ih =>
    intro l hl p u q
    cases l with
    | nil => exact ⟨by simp [iterT, IterOut.logOf], fun c r2 lg hh => by cases hh; rfl⟩
    | cons r rest =>
      obtain ⟨mm, pat, h, u0, sk, ua, ch⟩ := r
      have hrest : sizeOf rest ≤ k := by simp at hl; omega
      have hchs : sizeOf ch ≤ k := by simp at hl; omega
      have hstep := iterStepT_log_struct m (.node mm pat h u0 sk ua ch) p u q
        (fun p2 u2 q2 out heq => heq ▸ ih ch hchs p2 u2 q2)
      rw [iterT]
      cases hs : iterStepT m (.node mm pat h u0 sk ua ch) p u q with
      | finish out => exact hstep.1 out hs
      | next q' lg =>
        have hlg := hstep.2 q' lg hs
        subst hlg
        have htail := ih rest hrest p u q'
        cases ht : iterT m rest p u q' with
        | res c m2 r2 lg2 =>
          rw [ht] at htail
          simp only [ht]
          constructor
          · simpa [IterOut.logOf] using htail.1
          · intro c0 r0 lg0 hh
            cases hh
            simpa using htail.2 _ _ _ rfl
        | panicked m2 r2 lg2 =>
          rw [ht] at htail
          simp only [ht]
          constructor
          · simpa [IterOut.logOf] using htail.1
          · intro c0 r0 lg0 hh
            cases hh

theorem iterT_at_most_one (m : String) (l : List RouteT) (p : List String)
    (u : Bool) (q : Req) : (iterT m l p u q).logOf.length ≤ 1 :=
  (iterT_log_struct_aux m (sizeOf l) l le_rfl p u q).1



theorem iterStepT_unauth_401 (m : String) (r : RouteT) (p : List String) (q : Req)
    (hno : noUseB r = true)
    (hch : ∀ (p2 : List String) (q2 : Req) (c : Int) (r2 : Req) (lg : List Nat),
        iterT m r.childrenOf p2 true q2 = .res c true r2 lg → c = 401) :
    ∀ (c : Int) (r2 : Req) (lg : List Nat),
      iterStepT m r p true q = .finish (.res c true r2 lg) → c = 401 := by
  obtain ⟨mm, pat, h, u0, sk, ua, ch⟩ := r
  simp only [RouteT.childrenOf] at hch
  simp only [noUseB, Bool.and_eq_true] at hno
  intro c r2 lg hout
  cases u0 with
  | some uf => simp at hno
  | none =>
    rw [iterStepT.eq_def] at hout
    simp only [Bool.true_or] at hout
    split at hout
    · cases hout
    · split at hout
      · cases hout
      · split at hout
        · cases hout
        · split at hout
          · cases hout
          · split at hout
            · split at hout
              · cases hout; rfl
              · simp_all
            · split at hout
              · split at hout
                · cases hout
                · split at hout
                  · rename_i heq h6
                    subst h6
                    cases hout
                    exact hch _ _ _ _ _ heq
                  · cases hout
              · cases hout

theorem iterT_unauth_401_aux (m : String) :
    ∀ (n : Nat) (l : List RouteT), sizeOf l ≤ n → noUseList l = true →
      ∀ (p : List String) (q : Req) (c : Int) (r2 : Req) (lg : List Nat),
        iterT m l p true q = .res c true r2 lg → c = 401 := by
  intro n
  induction n with
  | zero =>
    intro l hl hno p q c r2 lg hiter
    cases l with
    | nil => cases hiter
    | cons r rest => cases r; simp at hl
  | succ k ih =>
    intro l hl hno p q c r2 lg hiter
    cases l with
    | nil => cases hiter
    | cons r rest =>
      simp only [noUseList, Bool.and_eq_true] at hno
      obtain ⟨mm, pat, h, u0, sk, ua, ch⟩ := r
      have hrest : sizeOf rest ≤ k := by simp at hl; omega
      have hchs : sizeOf ch ≤ k := by simp at hl; omega
      have hchlist : noUseList ch = true := by
        have := hno.1
        simp only [noUseB, Bool.and_eq_true] at this
        exact this.2
      have hstep := iterStepT_unauth_401 m (.node mm pat h u0 sk ua ch) p q hno.1
        (fun p2 q2 c0 r0 lg0 heq => ih ch hchs hchlist p2 q2 c0 r0 lg0 heq)
      rw [iterT] at hiter
      cases hs : iterStepT m (.node mm pat h u0 sk ua ch) p true q with
      | finish out =>
        rw [hs] at hiter
        simp only [] at hiter
        subst hiter
        exact hstep c r2 lg hs
      | next q' lg0 =>
        rw [hs] at hiter
        simp only [] at hiter
        cases ht : iterT m rest p true q' with
        | res c2 m2 rr lg2 =>
          rw [ht] at hiter
          simp only [] at hiter
          cases hiter
          exact ih rest hrest hno.2 p q' _ _ _ ht
        | panicked m2 rr lg2 =>
          rw [ht] at hiter
          simp only [] at hiter
          cases hiter

theorem iterT_unauth_401 (m : String) (l : List RouteT) (p : List String) (q : Req)
    (hno : noUseList l = true) (c : Int) (r2 : Req) (lg : List Nat)
    (hiter : iterT m l p true q = .res c true r2 lg) : c = 401 :=
  iterT_unauth_401_aux m (sizeOf l) l le_rfl hno p q c r2 lg hiter



theorem handlerRunsOf_append (a b : List Ev) :
    handlerRunsOf (a ++ b) = handlerRunsOf a ++ handlerRunsOf b :=
  List.filterMap_append ..

theorem mem_handlerRunsOf {hid : Nat} {v : Option VarsList} {evs : List Ev}
    (h : Ev.handlerRun hid v ∈ evs) : hid ∈ handlerRunsOf evs :=
  List.mem_filterMap.mpr ⟨_, h, rfl⟩

theorem mwLoop_handlerRuns (mws : List (Option MW)) (i : Nat) (req : Req) :
    handlerRunsOf (mwLoop mws i req).evsOf = [] := by
  induction mws generalizing i req with
  | nil => rfl
  | cons m0 rest ih =>
    cases m0 with
    | none => rfl
    | some mw =>
      rw [mwLoop]
      cases hr : mw req with
      | error msg => simp [MwOut.evsOf, handlerRunsOf]
      | ok out =>
        obtain ⟨⟨code, err⟩, req'⟩ := out
        cases err with
        | some e => simp [MwOut.evsOf, handlerRunsOf]
        | none =>
          have := ih (i + 1) req'
          cases hml : mwLoop rest (i + 1) req' with
          | done b r es =>
            rw [hml] at this
            simp only [hml]
            simpa [MwOut.evsOf, handlerRunsOf] using this
          | panicked msg r es =>
            rw [hml] at this
            simp only [hml]
            simpa [MwOut.evsOf, handlerRunsOf] using this



theorem strataLoop_handlerRun (m : String) (reqPath : List String) :
    ∀ (strata : List Stratum) (i : Nat) (req : Req) (hid : Nat) (v : Option VarsList),
      Ev.handlerRun hid v ∈ (strataLoop m reqPath strata i req).evsOf →
      ∃ j s hf, firstMatchIdxF m reqPath strata = some j ∧ strata[j]? = some s ∧
        s.handler = some hf ∧ hf.hid = hid ∧ v = (pathsMatchF s.pattern reqPath).1 := by
  intro strata
  induction strata with
  | nil => intro i req hid v hmem; simp [strataLoop, StrataOut.evsOf] at hmem
  | cons s rest ih =>
    intro i req hid v hmem
    rw [strataLoop] at hmem
    cases hc : s.call with
    | some c =>
      rw [hc] at hmem
      simp only [] at hmem
      have hfm : firstMatchIdxF m reqPath (s :: rest) =
          (firstMatchIdxF m reqPath rest).map (· + 1) := by
        rw [firstMatchIdxF]
        simp [hc]
      cases hr : c req with
      | error msg =>
        rw [hr] at hmem
        simp [StrataOut.evsOf] at hmem
      | ok out =>
        obtain ⟨⟨code, err⟩, req'⟩ := out
        rw [hr] at hmem
        cases err with
        | some e =>
          simp [StrataOut.evsOf] at hmem
        | none =>
          simp only [] at hmem
          cases hml : strataLoop m reqPath rest (i + 1) req' with
          | fell sc sr r es =>
            rw [hml] at hmem
            simp [StrataOut.evsOf] at hmem
            obtain ⟨j, s', hf, h1, h2, h3, h4, h5⟩ := ih (i + 1) req' hid v (by rw [hml]; simpa [StrataOut.evsOf] using hmem)
            exact ⟨j + 1, s', hf, by rw [hfm, h1]; rfl, by simpa using h2, h3, h4, h5⟩
          | returned r es =>
            rw [hml] at hmem
            simp [StrataOut.evsOf] at hmem
            obtain ⟨j, s', hf, h1, h2, h3, h4, h5⟩ := ih (i + 1) req' hid v (by rw [hml]; simpa [StrataOut.evsOf] using hmem)
            exact ⟨j + 1, s', hf, by rw [hfm, h1]; rfl, by simpa using h2, h3, h4, h5⟩
          | panicked msg r es =>
            rw [hml] at hmem
            simp [StrataOut.evsOf] at hmem
            obtain ⟨j, s', hf, h1, h2, h3, h4, h5⟩ := ih (i + 1) req' hid v (by rw [hml]; simpa [StrataOut.evsOf] using hmem)
            exact ⟨j + 1, s', hf, by rw [hfm, h1]; rfl, by simpa using h2, h3, h4, h5⟩
    | none =>
      rw [hc] at hmem
      simp only [] at hmem
      by_cases hm : s.method = m
      · simp only [hm, ne_eq, not_true_eq_false, if_false] at hmem
        cases hpm : pathsMatchF s.pattern reqPath with
        | mk vars ok =>
          rw [hpm] at hmem
          cases ok with
          | false =>
            simp only [] at hmem
            obtain ⟨j, s', hf, h1, h2, h3, h4, h5⟩ := ih (i + 1) req hid v hmem
            have hfm : firstMatchIdxF m reqPath (s :: rest) =
                (firstMatchIdxF m reqPath rest).map (· + 1) := by
              rw [firstMatchIdxF]
              simp [hc, hm, hpm]
            exact ⟨j + 1, s', hf, by rw [hfm, h1]; rfl, by simpa using h2, h3, h4, h5⟩
          | true =>
            have hfm : firstMatchIdxF m reqPath (s :: rest) = some 0 := by
              rw [firstMatchIdxF]
              simp [hc, hm, hpm]
            simp only [] at hmem
            cases hmw : mwLoop s.middleware 0 req with
            | panicked msg r es =>
              rw [hmw] at hmem
              simp only [StrataOut.evsOf] at hmem
              have h0 := mwLoop_handlerRuns s.middleware 0 req
              rw [hmw] at h0
              simp only [MwOut.evsOf] at h0
              have := mem_handlerRunsOf hmem
              rw [h0] at this
              cases this
            | done b req' es =>
              rw [hmw] at hmem
              simp only [] at hmem
              cases hh : s.handler with
              | none =>
                rw [hh] at hmem
                simp only [StrataOut.evsOf] at hmem
                have h0 := mwLoop_handlerRuns s.middleware 0 req
                rw [hmw] at h0
                simp only [MwOut.evsOf] at h0
                have := mem_handlerRunsOf hmem
                rw [h0] at this
                cases this
              | some hf =>
                rw [hh] at hmem
                simp only [] at hmem
                have h0 := mwLoop_handlerRuns s.middleware 0 req
                rw [hmw] at h0
                simp only [MwOut.evsOf] at h0
                have hnot : Ev.handlerRun hid v ∉ es := by
                  intro hin
                  have := mem_handlerRunsOf hin
                  rw [h0] at this
                  cases this
                cases hact : hf.act { req' with vars := vars } with
                | error msg =>
                  rw [hact] at hmem
                  simp only [StrataOut.evsOf, List.mem_append, List.mem_singleton] at hmem
                  rcases hmem with hin | heq
                  · exact absurd hin hnot
                  · cases heq
                    exact ⟨0, s, hf, hfm, by simp, hh, rfl, by simp [hpm]⟩
                | ok reqF =>
                  rw [hact] at hmem
                  simp only [StrataOut.evsOf, List.mem_append, List.mem_singleton] at hmem
                  rcases hmem with hin | heq
                  · exact absurd hin hnot
                  · cases heq
                    exact ⟨0, s, hf, hfm, by simp, hh, rfl, by simp [hpm]⟩
      · simp only [hm, ne_eq, if_true] at hmem
        have hmem2 : Ev.handlerRun hid v ∈ (strataLoop m reqPath rest (i + 1) req).evsOf := by
          split at hmem
          · exact hmem
          · simp_all
        obtain ⟨j, s', hf, h1, h2, h3, h4, h5⟩ := ih (i + 1) req hid v hmem2
        have hfm : firstMatchIdxF m reqPath (s :: rest) =
            (firstMatchIdxF m reqPath rest).map (· + 1) := by
          rw [firstMatchIdxF]
          simp [hc, hm]
        exact ⟨j + 1, s', hf, by rw [hfm, h1]; rfl, by simpa using h2, h3, h4, h5⟩



theorem strataLoop_at_most_one (m : String) (reqPath : List String) :
    ∀ (strata : List Stratum) (i : Nat) (req : Req),
      (handlerRunsOf (strataLoop m reqPath strata i req).evsOf).length ≤ 1 := by
  intro strata
  induction strata with
  | nil => intro i req; simp [strataLoop, StrataOut.evsOf, handlerRunsOf]
  | cons s rest ih =>
    intro i req
    rw [strataLoop]
    cases hc : s.call with
    | some c =>
      simp only []
      cases hr : c req with
      | error msg => simp [StrataOut.evsOf, handlerRunsOf]
      | ok out =>
        obtain ⟨⟨code, err⟩, req'⟩ := out
        cases err with
        | some e => simp [StrataOut.evsOf, handlerRunsOf]
        | none =>
          simp only []
          have htail := ih (i + 1) req'
          cases hml : strataLoop m reqPath rest (i + 1) req' with
          | fell sc sr r es =>
            rw [hml] at htail
            simp only [hml]
            simpa [StrataOut.evsOf, handlerRunsOf] using htail
          | returned r es =>
            rw [hml] at htail
            simp only [hml]
            simpa [StrataOut.evsOf, handlerRunsOf] using htail
          | panicked msg r es =>
            rw [hml] at htail
            simp only [hml]
            simpa [StrataOut.evsOf, handlerRunsOf] using htail
    | none =>
      simp only []
      split
      · exact ih (i + 1) req
      · cases hpm : pathsMatchF s.pattern reqPath with
        | mk vars ok =>
          cases ok with
          | false => exact ih (i + 1) req
          | true =>
            simp only []
            have h0 := mwLoop_handlerRuns s.middleware 0 req
            cases hmw : mwLoop s.middleware 0 req with
            | panicked msg r es =>
              rw [hmw] at h0
              simp only [MwOut.evsOf] at h0
              simp [StrataOut.evsOf, h0]
            | done b req' es =>
              rw [hmw] at h0
              simp only [MwOut.evsOf] at h0
              cases hh : s.handler with
              | none => simp [StrataOut.evsOf, h0]
              | some hf =>
                cases hact : hf.act { req' with vars := vars } with
                | error msg =>
                  simp [hact, StrataOut.evsOf, handlerRunsOf_append, h0, handlerRunsOf]
                  exact fun a ha => List.forall_none_of_filterMap_eq_nil h0 a ha
                | ok reqF =>
                  simp [hact, StrataOut.evsOf, handlerRunsOf_append, h0, handlerRunsOf]
                  exact fun a ha => List.forall_none_of_filterMap_eq_nil h0 a ha



theorem not_handlerRun_defEvsF (rt : FRouter) (hid : Nat) (v : Option VarsList) :
    Ev.handlerRun hid v ∉ defEvsF rt := by
  unfold defEvsF; split <;> simp

theorem handlerRunsOf_defEvsF (rt : FRouter) : handlerRunsOf (defEvsF rt) = [] := by
  unfold defEvsF; split <;> rfl

theorem mem_ite_nil_elim {c : Prop} [Decidable c] {l : List Ev} {x : Ev}
    (h : x ∈ (if c then l else [])) : x ∈ l := by
  split at h
  · exact h
  · cases h

theorem serveFlatMain_handlerRun (rt : FRouter) (m p : String) (req : Req)
    (evs0 : List Ev) (hid : Nat) (v : Option VarsList)
    (hno : Ev.handlerRun hid v ∉ evs0)
    (hmem : Ev.handlerRun hid v ∈ (serveFlat.serveFlatMain rt m p req evs0).events) :
    ∃ req1, Ev.handlerRun hid v ∈ (strataLoop m (explodePath p) rt.strata 0 req1).evsOf := by
  unfold serveFlat.serveFlatMain at hmem
  simp only [] at hmem
  cases h : strataLoop m (explodePath p) rt.strata 0 req with
  | returned r es =>
    rw [h] at hmem
    refine ⟨req, ?_⟩
    rw [h]
    simp only [StrataOut.evsOf]
    simp only [List.append_assoc, List.mem_append] at hmem
    rcases hmem with h0 | hB | hE | hD
    · exact absurd h0 hno
    · have := mem_ite_nil_elim hB; simp at this
    · exact hE
    · rw [defEvsF] at hD
      have := mem_ite_nil_elim hD; simp at this
  | panicked msg r es =>
    rw [h] at hmem
    refine ⟨req, ?_⟩
    rw [h]
    simp only [StrataOut.evsOf]
    simp only [List.append_assoc, List.mem_append] at hmem
    rcases hmem with h0 | hB | hE | hR | hD
    · exact absurd h0 hno
    · have := mem_ite_nil_elim hB; simp at this
    · exact hE
    · have := mem_ite_nil_elim hR; simp at this
    · rw [defEvsF] at hD
      have := mem_ite_nil_elim hD; simp at this
  | fell sc sr r es =>
    rw [h] at hmem
    refine ⟨req, ?_⟩
    rw [h]
    simp only [StrataOut.evsOf]
    by_cases hEH : rt.errorHook = true
    · simp only [hEH, if_true] at hmem
      simp only [List.append_assoc, List.mem_append] at hmem
      rcases hmem with h0 | hB | hE | hErr | hD
      · exact absurd h0 hno
      · have := mem_ite_nil_elim hB; simp at this
      · exact hE
      · simp at hErr
      · rw [defEvsF] at hD
        have := mem_ite_nil_elim hD; simp at this
    · simp only [hEH, if_false, Bool.false_eq_true] at hmem
      simp only [List.append_assoc, List.mem_append] at hmem
      rcases hmem with h0 | hB | hE | hErr | hD
      · exact absurd h0 hno
      · have := mem_ite_nil_elim hB; simp at this
      · exact hE
      · simp at hErr
      · rw [defEvsF] at hD
        have := mem_ite_nil_elim hD; simp at this

theorem serveFlat_handlerRun_from_loop (rt : FRouter) (m p : String) (hid : Nat)
    (v : Option VarsList)
    (hmem : Ev.handlerRun hid v ∈ (serveFlat rt m p).events) :
    ∃ req1, Ev.handlerRun hid v ∈ (strataLoop m (explodePath p) rt.strata 0 req1).evsOf := by
  unfold serveFlat at hmem
  cases hrd : rt.redirect with
  | none =>
    rw [hrd] at hmem
    simp only [] at hmem
    exact serveFlatMain_handlerRun rt m p _ [] hid v (by simp) hmem
  | some rd =>
    rw [hrd] at hmem
    simp only [] at hmem
    cases hr : rd { id := rt.idGen.getD "", vars := some [], status := 0, error := none } with
    | mk b req1 =>
      rw [hr] at hmem
      by_cases hb : b = true
      · simp only [hb, if_true] at hmem
        simp only [List.mem_append] at hmem
        rcases hmem with hmem | hmem
        · simp at hmem
        · rw [defEvsF] at hmem
          have := mem_ite_nil_elim hmem; simp at this
      · simp only [hb, if_false, Bool.false_eq_true] at hmem
        exact serveFlatMain_handlerRun rt m p _ [Ev.redirectHook] hid v (by simp) hmem



theorem handlerRunsOf_ite_before {c : Prop} [Decidable c] :
    handlerRunsOf (if c then [Ev.beforeHook] else []) = [] := by
  split <;> rfl

theorem handlerRunsOf_ite_recover {c : Prop} [Decidable c] (msg : String) :
    handlerRunsOf (if c then [Ev.recoverHook msg] else []) = [] := by
  split <;> rfl

theorem handlerRunsOf_errorHook (s : Int) (e : Option String) :
    handlerRunsOf [Ev.errorHook s e] = [] := rfl

theorem handlerRunsOf_statusWrite (c : Int) :
    handlerRunsOf [Ev.statusWrite c] = [] := rfl

theorem handlerRunsOf_redirectHook : handlerRunsOf [Ev.redirectHook] = [] := rfl

theorem serveFlatMain_at_most_one (rt : FRouter) (m p : String) (req : Req)
    (evs0 : List Ev) (h0 : handlerRunsOf evs0 = []) :
    (handlerRunsOf (serveFlat.serveFlatMain rt m p req evs0).events).length ≤ 1 := by
  have hloop := strataLoop_at_most_one m (explodePath p) rt.strata 0 req
  unfold serveFlat.serveFlatMain
  simp only []
  cases h : strataLoop m (explodePath p) rt.strata 0 req with
  | returned r es =>
    rw [h] at hloop
    simp only [StrataOut.evsOf] at hloop
    simp only [h, handlerRunsOf_append, h0, handlerRunsOf_defEvsF,
      handlerRunsOf_ite_before, List.nil_append, List.append_nil]
    exact hloop
  | panicked msg r es =>
    rw [h] at hloop
    simp only [StrataOut.evsOf] at hloop
    simp only [h, handlerRunsOf_append, h0, handlerRunsOf_defEvsF,
      handlerRunsOf_ite_before, handlerRunsOf_ite_recover, List.nil_append,
      List.append_nil]
    exact hloop
  | fell sc sr r es =>
    rw [h] at hloop
    simp only [StrataOut.evsOf] at hloop
    simp only [h]
    split <;>
      simp only [handlerRunsOf_append, h0, handlerRunsOf_defEvsF,
        handlerRunsOf_ite_before, handlerRunsOf_errorHook, handlerRunsOf_statusWrite,
        List.nil_append, List.append_nil] <;>
      exact hloop

theorem serveFlat_at_most_one (rt : FRouter) (m p : String) :
    (handlerRunsOf (serveFlat rt m p).events).length ≤ 1 := by
  unfold serveFlat
  cases hrd : rt.redirect with
  | none => exact serveFlatMain_at_most_one rt m p _ [] rfl
  | some rd =>
    simp only []
    cases hr : rd { id := rt.idGen.getD "", vars := some [], status := 0, error := none } with
    | mk b req1 =>
      by_cases hb : b = true
      · simp only [hb, if_true]
        simp only [handlerRunsOf_append, handlerRunsOf_defEvsF,
          handlerRunsOf_redirectHook, List.nil_append, List.append_nil]
        simp
      · simp only [hb, if_false, Bool.false_eq_true]
        exact serveFlatMain_at_most_one rt m p _ [Ev.redirectHook] rfl



theorem iterStepT_plain_spec (m : String) (r : RouteT) (p : List String) (q : Req)
    (hpl : plainB r = true)
    (hch : ∀ (p2 : List String) (q2 : Req) (out : IterOut),
        iterT m r.childrenOf p2 false q2 = out →
        (∀ c r2 lg, out = .res c true r2 lg →
            ∃ hid, lg = [hid] ∧ c = 0 ∧
              firstMatchT m r.childrenOf p2 = some (some hid)) ∧
        (∀ c r2 lg, out = .res c false r2 lg →
            lg = [] ∧ firstMatchT m r.childrenOf p2 = none) ∧
        (∀ msg r2 lg, out = .panicked msg r2 lg →
            (lg = [] ∧ msg = "call of nil handler" ∧
              firstMatchT m r.childrenOf p2 = some none) ∨
            (∃ hid, lg = [hid] ∧
              firstMatchT m r.childrenOf p2 = some (some hid)))) :
    (∀ out, iterStepT m r p false q = .finish out →
        (∀ c r2 lg, out = .res c true r2 lg →
            ∃ hid, lg = [hid] ∧ c = 0 ∧
              firstMatchRouteT m r p = some (some hid)) ∧
        (∀ c r2 lg, out = .res c false r2 lg → False) ∧
        (∀ msg r2 lg, out = .panicked msg r2 lg →
            (lg = [] ∧ msg = "call of nil handler" ∧
              firstMatchRouteT m r p = some none) ∨
            (∃ hid, lg = [hid] ∧
              firstMatchRouteT m r p = some (some hid)))) ∧
    (∀ q' lg, iterStepT m r p false q = .next q' lg →
        lg = [] ∧ firstMatchRouteT m r p = none) := by
  obtain ⟨mm, pat, h, u0, sk, ua, ch⟩ := r
  simp only [RouteT.childrenOf] at hch
  simp only [plainB, Bool.and_eq_true, Option.isNone_iff_eq_none] at hpl
  obtain ⟨⟨⟨hu, hsk0⟩, hua⟩, hchpl⟩ := hpl
  subst hu; subst hsk0; subst hua
  constructor
  · intro out hout
    rw [iterStepT.eq_def] at hout
    simp only [Bool.false_or] at hout
    split at hout
    · cases hout
    · split at hout
      · cases hout
      · split at hout
        · cases hout
        · split at hout
          · cases hout
          · split at hout
            · split at hout
              · rename_i hsk hm hlen hx hvars hpm hterm hopt
                cases hout
                refine ⟨fun c r2 lg hh => (by cases hh),
                  fun c r2 lg hh => (by cases hh),
                  fun msg r2 lg hh => ?_⟩
                cases hh
                refine Or.inl ⟨rfl, rfl, ?_⟩
                simp [firstMatchRouteT, hm, hlen, hpm, hterm]
              · split at hout
                · rename_i hsk hm hlen hx1 hvars hpm hterm hopt hf hx2 hmsg hact
                  cases hout
                  refine ⟨fun c r2 lg hh => (by cases hh),
                    fun c r2 lg hh => (by cases hh),
                    fun msg r2 lg hh => ?_⟩
                  cases hh
                  refine Or.inr ⟨hf.hid, rfl, ?_⟩
                  simp [firstMatchRouteT, hm, hlen, hpm, hterm]
                · rename_i hsk hm hlen hx1 hvars hpm hterm hopt hf hx2 hreq hact
                  cases hout
                  refine ⟨fun c r2 lg hh => ?_,
                    fun c r2 lg hh => (by cases hh),
                    fun msg r2 lg hh => (by cases hh)⟩
                  cases hh
                  refine ⟨hf.hid, rfl, rfl, ?_⟩
                  simp [firstMatchRouteT, hm, hlen, hpm, hterm]
            · split at hout
              · split at hout
                · rename_i hsk hm hlen hx1 hvars hpm hterm hne hx2 hmsg0 hr0 hlg0 heq
                  cases hout
                  have h6 : firstMatchRouteT m (.node mm pat h none none none ch) p =
                      firstMatchT m ch (List.drop pat.length p) := by
                    simp [firstMatchRouteT, hm, hlen, hpm, hterm]
                  have h5 := (hch _ _ _ heq).2.2 _ _ _ rfl
                  refine ⟨fun c r2 lg hh => (by cases hh),
                    fun c r2 lg hh => (by cases hh),
                    fun msg r2 lg hh => ?_⟩
                  cases hh
                  rcases h5 with ⟨ha, hb, hc⟩ | ⟨hid, ha, hc⟩
                  · exact Or.inl ⟨ha, hb, h6.trans hc⟩
                  · exact Or.inr ⟨hid, ha, h6.trans hc⟩
                · split at hout
                  · rename_i hsk hm hlen hx1 hvars hpm hterm hne hx2 c0 mtd0 r0 lg0 heq hmtd
                    subst hmtd
                    cases hout
                    have h6 : firstMatchRouteT m (.node mm pat h none none none ch) p =
                        firstMatchT m ch (List.drop pat.length p) := by
                      simp [firstMatchRouteT, hm, hlen, hpm, hterm]
                    have h5 := (hch _ _ _ heq).1 _ _ _ rfl
                    obtain ⟨hid, ha, hb, hc⟩ := h5
                    refine ⟨fun c r2 lg hh => ?_,
                      fun c r2 lg hh => (by cases hh),
                      fun msg r2 lg hh => (by cases hh)⟩
                    cases hh
                    exact ⟨hid, ha, hb, h6.trans hc⟩
                  · cases hout
              · cases hout
  · intro q' lg hnext
    rw [iterStepT.eq_def] at hnext
    simp only [Bool.false_or] at hnext
    split at hnext
    · rename_i hskip
      exact absurd hskip (by simp)
    · split at hnext
      · rename_i hsk hm
        cases hnext
        exact ⟨rfl, by simp [firstMatchRouteT, hm]⟩
      · split at hnext
        · rename_i hsk hm hlen
          cases hnext
          exact ⟨rfl, by simp [firstMatchRouteT, hm, hlen]⟩
        · split at hnext
          · rename_i hsk hm hlen hx hv hpm
            cases hnext
            exact ⟨rfl, by simp [firstMatchRouteT, hm, hlen, hpm]⟩
          · split at hnext
            · split at hnext
              · cases hnext
              · split at hnext
                · cases hnext
                · cases hnext
            · split at hnext
              · split at hnext
                · cases hnext
                · split at hnext
                  · cases hnext
                  · rename_i hsk hm hlen hx1 hvars hpm hterm hne hx2 c0 mtd0 r0 lg0 heq hmtd
                    simp only [Bool.not_eq_true] at hmtd
                    subst hmtd
                    cases hnext
                    have h6 : firstMatchRouteT m (.node mm pat h none none none ch) p =
                        firstMatchT m ch (List.drop pat.length p) := by
                      simp [firstMatchRouteT, hm, hlen, hpm, hterm]
                    have h5 := (hch _ _ _ heq).2.1 _ _ _ rfl
                    exact ⟨h5.1, h6.trans h5.2⟩
              · rename_i hsk hm hlen hx hvars hpm hterm hne
                cases hnext
                refine ⟨rfl, ?_⟩
                simp only [Bool.not_eq_true, Bool.not_eq_false] at hne
                have hemp : ch = [] := by
                  cases ch with
                  | nil => rfl
                  | cons a b => simp [List.isEmpty] at hne
                subst hemp
                simp [firstMatchRouteT, hm, hlen, hpm, hterm, firstMatchT]

theorem iterT_plain_spec_aux (m : String) :
    ∀ (n : Nat) (l : List RouteT), sizeOf l ≤ n → plainList l = true →
      ∀ (p : List String) (q : Req),
        (∀ c r2 lg, iterT m l p false q = .res c true r2 lg →
            ∃ hid, lg = [hid] ∧ c = 0 ∧ firstMatchT m l p = some (some hid)) ∧
        (∀ c r2 lg, iterT m l p false q = .res c false r2 lg →
            lg = [] ∧ firstMatchT m l p = none) ∧
        (∀ msg r2 lg, iterT m l p false q = .panicked msg r2 lg →
            (lg = [] ∧ msg = "call of nil handler" ∧ firstMatchT m l p = some none) ∨
            (∃ hid, lg = [hid] ∧ firstMatchT m l p = some (some hid))) := by
  intro n
  induction n with
  | zero =>
    intro l hl hpl p q
    cases l with
    | nil =>
      refine ⟨fun c r2 lg hh => ?_, fun c r2 lg hh => ?_, fun msg r2 lg hh => ?_⟩
      · rw [iterT] at hh; cases hh
      · rw [iterT] at hh; cases hh; exact ⟨rfl, rfl⟩
      · rw [iterT] at hh; cases hh
    | cons r rest => cases r; simp at hl
  | succ k ih =>
    intro l hl hpl p q
    cases l with
    | nil =>
      refine ⟨fun c r2 lg hh => ?_, fun c r2 lg hh => ?_, fun msg r2 lg hh => ?_⟩
      · rw [iterT] at hh; cases hh
      · rw [iterT] at hh; cases hh; exact ⟨rfl, rfl⟩
      · rw [iterT] at hh; cases hh
    | cons r rest =>
      obtain ⟨mm, pat, h, u0, sk, ua, ch⟩ := r
      have hrest : sizeOf rest ≤ k := by simp at hl; omega
      have hchs : sizeOf ch ≤ k := by simp at hl; omega
      simp only [plainList, Bool.and_eq_true] at hpl
      obtain ⟨hplr, hplrest⟩ := hpl
      have hchpl : plainList ch = true := by
        simp only [plainB, Bool.and_eq_true] at hplr
        exact hplr.2
      have hstep := iterStepT_plain_spec m (.node mm pat h u0 sk ua ch) p q hplr
        (fun p2 q2 out heq => heq ▸ ih ch hchs hchpl p2 q2)
      have hfm1 : ∀ sel, firstMatchRouteT m (.node mm pat h u0 sk ua ch) p = some sel →
          firstMatchT m (RouteT.node mm pat h u0 sk ua ch :: rest) p = some sel :=
        fun sel hx => by rw [firstMatchT, hx]
      have hfm2 : firstMatchRouteT m (.node mm pat h u0 sk ua ch) p = none →
          firstMatchT m (RouteT.node mm pat h u0 sk ua ch :: rest) p =
            firstMatchT m rest p :=
        fun hx => by rw [firstMatchT, hx]
      cases hs : iterStepT m (.node mm pat h u0 sk ua ch) p false q with
      | finish out =>
        have hcons : iterT m (RouteT.node mm pat h u0 sk ua ch :: rest) p false q = out := by
          rw [iterT, hs]
        have h5 := hstep.1 out hs
        refine ⟨fun c r2 lg hh => ?_, fun c r2 lg hh => ?_, fun msg r2 lg hh => ?_⟩
        · rw [hcons] at hh
          obtain ⟨hid, ha, hb, hc⟩ := h5.1 c r2 lg hh
          exact ⟨hid, ha, hb, hfm1 _ hc⟩
        · rw [hcons] at hh
          exact absurd hh (h5.2.1 c r2 lg)
        · rw [hcons] at hh
          rcases h5.2.2 msg r2 lg hh with ⟨ha, hb, hc⟩ | ⟨hid, ha, hc⟩
          · exact Or.inl ⟨ha, hb, hfm1 _ hc⟩
          · exact Or.inr ⟨hid, ha, hfm1 _ hc⟩
      | next q' lg0 =>
        obtain ⟨hlg0, hfr⟩ := hstep.2 q' lg0 hs
        subst hlg0
        have htail := ih rest hrest hplrest p q'
        have hcons : iterT m (RouteT.node mm pat h u0 sk ua ch :: rest) p false q =
            iterT m rest p false q' := by
          rw [iterT, hs]
          cases ht2 : iterT m rest p false q' <;> simp [ht2]
        refine ⟨fun c r2 lg hh => ?_, fun c r2 lg hh => ?_, fun msg r2 lg hh => ?_⟩
        · rw [hcons] at hh
          obtain ⟨hid, ha, hb, hc⟩ := htail.1 _ _ _ hh
          exact ⟨hid, ha, hb, (hfm2 hfr).trans hc⟩
        · rw [hcons] at hh
          obtain ⟨ha, hc⟩ := htail.2.1 _ _ _ hh
          exact ⟨ha, (hfm2 hfr).trans hc⟩
        · rw [hcons] at hh
          rcases htail.2.2 _ _ _ hh with ⟨ha, hb, hc⟩ | ⟨hid, ha, hc⟩
          · exact Or.inl ⟨ha, hb, (hfm2 hfr).trans hc⟩
          · exact Or.inr ⟨hid, ha, (hfm2 hfr).trans hc⟩

theorem iterT_plain_run_firstMatch (m : String) (l : List RouteT) (p : List String)
    (q : Req) (hid : Nat) (hpl : plainList l = true)
    (hmem : hid ∈ (iterT m l p false q).logOf) :
    firstMatchT m l p = some (some hid) := by
  have hspec := iterT_plain_spec_aux m (sizeOf l) l le_rfl hpl p q
  cases ho : iterT m l p false q with
  | res c mtd r2 lg =>
    rw [ho] at hmem
    simp only [IterOut.logOf] at hmem
    cases mtd with
    | true =>
      obtain ⟨hid2, ha, hb, hc⟩ := hspec.1 _ _ _ ho
      subst ha
      simp only [List.mem_singleton] at hmem
      subst hmem
      exact hc
    | false =>
      obtain ⟨ha, hc⟩ := hspec.2.1 _ _ _ ho
      subst ha
      cases hmem
  | panicked msg r2 lg =>
    rw [ho] at hmem
    simp only [IterOut.logOf] at hmem
    rcases hspec.2.2 _ _ _ ho with ⟨ha, hb, hc⟩ | ⟨hid2, ha, hc⟩
    · subst ha; cases hmem
    · subst ha
      simp only [List.mem_singleton] at hmem
      subst hmem
      exact hc

theorem iterT_plain_firstMatch_run (m : String) (l : List RouteT) (p : List String)
    (q : Req) (hid : Nat) (hpl : plainList l = true)
    (hfm : firstMatchT m l p = some (some hid)) :
    (iterT m l p false q).logOf = [hid] := by
  have hspec := iterT_plain_spec_aux m (sizeOf l) l le_rfl hpl p q
  cases ho : iterT m l p false q with
  | res c mtd r2 lg =>
    cases mtd with
    | true =>
      obtain ⟨hid2, ha, hb, hc⟩ := hspec.1 _ _ _ ho
      rw [hc] at hfm
      simp only [Option.some.injEq] at hfm
      subst hfm
      simp [IterOut.logOf, ha]
    | false =>
      obtain ⟨ha, hc⟩ := hspec.2.1 _ _ _ ho
      rw [hc] at hfm
      cases hfm
  | panicked msg r2 lg =>
    rcases hspec.2.2 _ _ _ ho with ⟨ha, hb, hc⟩ | ⟨hid2, ha, hc⟩
    · rw [hc] at hfm
      simp at hfm
    · rw [hc] at hfm
      simp only [Option.some.injEq] at hfm
      subst hfm
      simp [IterOut.logOf, ha]

theorem mem_ite_elim {c : Prop} [Decidable c] {α : Type} {l1 l2 : List α} {x : α}
    (h : x ∈ (if c then l1 else l2)) : x ∈ l1 ∨ x ∈ l2 := by
  split at h
  · exact Or.inl h
  · exact Or.inr h

theorem serveTree_treeRun_mem (rt : TRouter) (m p : String) (hid : Nat)
    (hmem : Ev.treeHandlerRun hid ∈ (serveTree rt m p).events) :
    ∃ q1, hid ∈ (iterT m rt.root (explodePath p) false q1).logOf := by
  unfold serveTree at hmem
  cases hb : rt.before with
  | some b =>
    simp only [hb] at hmem
    split at hmem
    · simp only [DispatchRes.events, List.mem_append, List.mem_singleton] at hmem
      rcases hmem with hmem | hmem
      · cases hmem
      · exact absurd (mem_ite_nil_elim hmem) (by simp)
    · cases hiter : iterT m rt.root (explodePath p) false
          (b { id := rt.idGen.getD "", vars := some [], status := 0, error := none }) with
      | panicked msg req lg =>
        refine ⟨b { id := rt.idGen.getD "", vars := some [], status := 0, error := none }, ?_⟩
        rw [hiter]
        simp only [hiter] at hmem
        rcases mem_ite_elim (by simpa only [apply_ite DispatchRes.events] using hmem) with
          hmem2 | hmem2 <;>
          simp only [List.append_assoc, List.mem_append, List.mem_singleton,
            List.mem_map, IterOut.logOf] at hmem2 ⊢
        · rcases hmem2 with hmem2 | hmem2 | hmem2 | hmem2
          · cases hmem2
          · obtain ⟨a, ha, haeq⟩ := hmem2
            cases haeq
            exact ha
          · cases hmem2
          · exact absurd (mem_ite_nil_elim hmem2) (by simp)
        · rcases hmem2 with hmem2 | hmem2 | hmem2
          · cases hmem2
          · obtain ⟨a, ha, haeq⟩ := hmem2
            cases haeq
            exact ha
          · exact absurd (mem_ite_nil_elim hmem2) (by simp)
      | res code matched req lg =>
        refine ⟨b { id := rt.idGen.getD "", vars := some [], status := 0, error := none }, ?_⟩
        rw [hiter]
        simp only [hiter] at hmem
        rcases mem_ite_elim (by simpa only [apply_ite DispatchRes.events] using hmem) with
          hmem2 | hmem2 <;>
          simp only [List.append_assoc, List.mem_append, List.mem_singleton,
            List.mem_map, IterOut.logOf] at hmem2 ⊢
        · rcases hmem2 with hmem2 | hmem2 | hmem2 | hmem2
          · cases hmem2
          · obtain ⟨a, ha, haeq⟩ := hmem2
            cases haeq
            exact ha
          · cases hmem2
          · exact absurd (mem_ite_nil_elim hmem2) (by simp)
        · rcases hmem2 with hmem2 | hmem2 | hmem2
          · cases hmem2
          · obtain ⟨a, ha, haeq⟩ := hmem2
            cases haeq
            exact ha
          · exact absurd (mem_ite_nil_elim hmem2) (by simp)
  | none =>
    simp only [hb] at hmem
    split at hmem
    · rename_i hcond
      simp only [Option.isSome_none, Bool.false_eq_true, false_and] at hcond
    · cases hiter : iterT m rt.root (explodePath p) false
          { id := rt.idGen.getD "", vars := some [], status := 0, error := none } with
      | panicked msg req lg =>
        refine ⟨{ id := rt.idGen.getD "", vars := some [], status := 0, error := none }, ?_⟩
        rw [hiter]
        simp only [hiter] at hmem
        rcases mem_ite_elim (by simpa only [apply_ite DispatchRes.events] using hmem) with
          hmem2 | hmem2 <;>
          simp only [List.append_assoc, List.nil_append, List.mem_append, List.mem_singleton,
            List.mem_map, IterOut.logOf] at hmem2 ⊢
        · rcases hmem2 with hmem2 | hmem2 | hmem2
          · obtain ⟨a, ha, haeq⟩ := hmem2
            cases haeq
            exact ha
          · cases hmem2
          · exact absurd (mem_ite_nil_elim hmem2) (by simp)
        · rcases hmem2 with hmem2 | hmem2
          · obtain ⟨a, ha, haeq⟩ := hmem2
            cases haeq
            exact ha
          · exact absurd (mem_ite_nil_elim hmem2) (by simp)
      | res code matched req lg =>
        refine ⟨{ id := rt.idGen.getD "", vars := some [], status := 0, error := none }, ?_⟩
        rw [hiter]
        simp only [hiter] at hmem
        rcases mem_ite_elim (by simpa only [apply_ite DispatchRes.events] using hmem) with
          hmem2 | hmem2 <;>
          simp only [List.append_assoc, List.nil_append, List.mem_append, List.mem_singleton,
            List.mem_map, IterOut.logOf] at hmem2 ⊢
        · rcases hmem2 with hmem2 | hmem2 | hmem2
          · obtain ⟨a, ha, haeq⟩ := hmem2
            cases haeq
            exact ha
          · cases hmem2
          · exact absurd (mem_ite_nil_elim hmem2) (by simp)
        · rcases hmem2 with hmem2 | hmem2
          · obtain ⟨a, ha, haeq⟩ := hmem2
            cases haeq
            exact ha
          · exact absurd (mem_ite_nil_elim hmem2) (by simp)

theorem serveTree_plain_firstMatch (rt : TRouter) (m p : String) (hid : Nat)
    (hpl : plainList rt.root = true)
    (hmem : Ev.treeHandlerRun hid ∈ (serveTree rt m p).events) :
    firstMatchT m rt.root (explodePath p) = some (some hid) := by
  obtain ⟨q1, hq⟩ := serveTree_treeRun_mem rt m p hid hmem
  exact iterT_plain_run_firstMatch m rt.root (explodePath p) q1 hid hpl hq


/-- C3: first-match-wins in both variants.  Flat: whenever a route handler
is invoked it is the handler of the first registered stratum (a route
entry, in registration order) whose method and pattern match the request,
and at most one handler runs per dispatch.  Tree: at most one handler runs
per `iterateRoutes` search, and on every tree free of `Use` entries and of
`skip`/`unauthorized` guards (`plainList` — arbitrary route lists and
arbitrarily nested groups with nil guards, the domain on which "the first
route whose method and pattern match" is the whole selection criterion;
firing guards are the spec'd exceptions to pattern-only matching, cf. C6),
the handler invoked is exactly the handler at the first terminal match in
depth-first registration order (`firstMatchT`), in both directions: any
invoked handler id equals that selection, and a selected handler id is the
one invoked — also end to end through `ServeHTTP` events.  In particular
registering `GET /a/:x` before `GET /a/literal` and requesting
`/a/literal` invokes handler 1 (`/a/:x`) in both variants. -/
theorem claim_C3_first_match_wins :
    (∀ (rt : FRouter) (m p : String) (hid : Nat) (v : Option VarsList),
        Ev.handlerRun hid v ∈ (serveFlat rt m p).events →
        ∃ j s hf, firstMatchIdxF m (explodePath p) rt.strata = some j ∧
          rt.strata[j]? = some s ∧ s.handler = some hf ∧ hf.hid = hid) ∧
    (∀ (rt : FRouter) (m p : String),
        (handlerRunsOf (serveFlat rt m p).events).length ≤ 1) ∧
    (∀ (m : String) (l : List RouteT) (p : List String) (u : Bool) (q : Req),
        (iterT m l p u q).logOf.length ≤ 1) ∧
    (∀ (m : String) (l : List RouteT) (p : List String) (q : Req) (hid : Nat),
        plainList l = true → hid ∈ (iterT m l p false q).logOf →
        firstMatchT m l p = some (some hid)) ∧
    (∀ (m : String) (l : List RouteT) (p : List String) (q : Req) (hid : Nat),
        plainList l = true → firstMatchT m l p = some (some hid) →
        (iterT m l p false q).logOf = [hid]) ∧
    (∀ (rt : TRouter) (m p : String) (hid : Nat),
        plainList rt.root = true →
        Ev.treeHandlerRun hid ∈ (serveTree rt m p).events →
        firstMatchT m rt.root (explodePath p) = some (some hid)) ∧
    c3FlatRouter.map (fun r => handlerRunsOf (serveFlat r "GET" "/a/literal").events) =
      some [1] ∧
    c3TreeRouter.map (fun r => treeRunsOf (serveTree r "GET" "/a/literal").events) =
      some [1] := by
  refine ⟨?_, serveFlat_at_most_one, iterT_at_most_one,
    fun m l p q hid hpl hmem => iterT_plain_run_firstMatch m l p q hid hpl hmem,
    fun m l p q hid hpl hfm => iterT_plain_firstMatch_run m l p q hid hpl hfm,
    fun rt m p hid hpl hmem => serveTree_plain_firstMatch rt m p hid hpl hmem,
    by decide, by decide⟩
  intro rt m p hid v hmem
  obtain ⟨req1, hmem2⟩ := serveFlat_handlerRun_from_loop rt m p hid v hmem
  obtain ⟨j, s, hf, h1, h2, h3, h4, _⟩ :=
    strataLoop_handlerRun m (explodePath p) rt.strata 0 req1 hid v hmem2
  exact ⟨j, s, hf, h1, h2, h3, h4⟩

/-- Witness for C3: the flat conjunct at the router with route `GET /a/:x`
(handler 3), and the tree first-match conjunct at the guard-free router
holding two `GET /a` registrations (handlers 1 and 2): the search selects
and invokes handler 1, the first registered. -/
theorem claim_C3_witness :
    (Ev.handlerRun 3 (some [("x", "literal")]) ∈
      (serveFlat c10Router "GET" "/a/literal").events ∧
    (∃ j s hf, firstMatchIdxF "GET" (explodePath "/a/literal") c10Router.strata = some j ∧
      c10Router.strata[j]? = some s ∧ s.handler = some hf ∧ hf.hid = 3)) ∧
    (plainList c9Tree2.root = true ∧
      firstMatchT "GET" c9Tree2.root ["a"] = some (some 1) ∧
      (iterT "GET" c9Tree2.root ["a"] false req0).logOf = [1]) :=
  ⟨⟨by decide, claim_C3_first_match_wins.1 c10Router "GET" "/a/literal" 3
      (some [("x", "literal")]) (by decide)⟩,
   ⟨by decide, by decide,
     claim_C3_first_match_wins.2.2.2.2.1 "GET" c9Tree2.root ["a"] req0 1
       (by decide) (by decide)⟩⟩

/-- C6: once the inherited unauthorized flag is set, no handler is ever
invoked anywhere in the subtree search, and (in trees without global
`Use` entries) every terminal route match under the flag yields code 401;
end to end, a group whose `unauthorized` guard fires produces an Error-hook
call with status 401 and no handler invocation. -/
theorem claim_C6_unauthorized_monotone :
    (∀ (m : String) (l : List RouteT) (p : List String) (q : Req),
        (iterT m l p true q).logOf = []) ∧
    (∀ (m : String) (l : List RouteT) (p : List String) (q : Req),
        noUseList l = true → ∀ (c : Int) (r2 : Req) (lg : List Nat),
        iterT m l p true q = .res c true r2 lg → c = 401) ∧
    (serveTree c6Router "GET" "/admin/x").events =
      [Ev.errorHook 401 none, Ev.deferredHook] := by
  refine ⟨iterT_true_log, ?_, by decide⟩
  intro m l p q hno c r2 lg hiter
  exact iterT_unauth_401 m l p q hno c r2 lg hiter

/-- Witness for C6 at the always-unauthorized group. -/
theorem claim_C6_witness :
    noUseList c6Routes = true ∧
    iterT "GET" c6Routes ["admin", "x"] true req0 =
      .res 401 true ⟨"", none, 0, none⟩ [] ∧
    (401 : Int) = 401 :=
  ⟨by decide, by decide,
    claim_C6_unauthorized_monotone.2.1 "GET" c6Routes ["admin", "x"] req0 (by decide)
      401 ⟨"", none, 0, none⟩ [] (by decide)⟩



theorem mwLoop_mwRun_vars (mws : List (Option MW)) (i : Nat) (req : Req)
    (hv : req.vars = some [])
    (hpres : ∀ mw, some mw ∈ mws → mwPreservesVars mw) :
    ∀ (k : Nat) (v : Option VarsList), Ev.mwRun k v ∈ (mwLoop mws i req).evsOf →
      v = some [] := by
  induction mws generalizing i req with
  | nil => intro k v h; simp [mwLoop, MwOut.evsOf] at h
  | cons m0 rest ih =>
    intro k v h
    cases m0 with
    | none => simp [mwLoop, MwOut.evsOf] at h
    | some mw =>
      rw [mwLoop] at h
      cases hr : mw req with
      | error msg =>
        rw [hr] at h
        simp [MwOut.evsOf] at h
        rw [h.2, hv]
      | ok out =>
        obtain ⟨⟨code, err⟩, req'⟩ := out
        rw [hr] at h
        cases err with
        | some e =>
          simp [MwOut.evsOf] at h
          rw [h.2, hv]
        | none =>
          simp only [] at h
          have hv' : req'.vars = some [] := by
            rw [hpres mw (by simp) req ((code, none), req') hr, hv]
          have hpres' : ∀ mw2, some mw2 ∈ rest → mwPreservesVars mw2 :=
            fun mw2 hm => hpres mw2 (by simp [hm])
          cases hml : mwLoop rest (i + 1) req' with
          | done b r es =>
            rw [hml] at h
            simp only [MwOut.evsOf, List.mem_cons] at h
            rcases h with h | h
            · cases h; rw [hv]
            · have := ih (i + 1) req' hv' hpres' k v (by rw [hml]; simpa [MwOut.evsOf] using h)
              exact this
          | panicked msg r es =>
            rw [hml] at h
            simp only [MwOut.evsOf, List.mem_cons] at h
            rcases h with h | h
            · cases h; rw [hv]
            · exact ih (i + 1) req' hv' hpres' k v (by rw [hml]; simpa [MwOut.evsOf] using h)



theorem strataLoop_mwRun_vars (m : String) (reqPath : List String) :
    ∀ (strata : List Stratum) (i : Nat) (req : Req),
      req.vars = some [] →
      (∀ s ∈ strata, stratumPreserves s) →
      ∀ (k : Nat) (v : Option VarsList),
        Ev.mwRun k v ∈ (strataLoop m reqPath strata i req).evsOf → v = some [] := by
  intro strata
  induction strata with
  | nil => intro i req hv hpres k v h; simp [strataLoop, StrataOut.evsOf] at h
  | cons s rest ih =>
    intro i req hv hpres k v h
    have hs : stratumPreserves s := hpres s (by simp)
    have hrest : ∀ s2 ∈ rest, stratumPreserves s2 := fun s2 h2 => hpres s2 (by simp [h2])
    rw [strataLoop] at h
    cases hc : s.call with
    | some c =>
      rw [hc] at h
      simp only [] at h
      cases hr : c req with
      | error msg =>
        rw [hr] at h
        simp [StrataOut.evsOf] at h
      | ok out =>
        obtain ⟨⟨code, err⟩, req'⟩ := out
        rw [hr] at h
        cases err with
        | some e => simp [StrataOut.evsOf] at h
        | none =>
          simp only [] at h
          have hv' : req'.vars = some [] := by
            rw [hs.2 c hc req ((code, none), req') hr, hv]
          cases hml : strataLoop m reqPath rest (i + 1) req' with
          | fell sc sr r es =>
            rw [hml] at h
            simp only [StrataOut.evsOf, List.mem_cons] at h
            rcases h with h | h
            · cases h
            · exact ih (i + 1) req' hv' hrest k v (by rw [hml]; simpa [StrataOut.evsOf] using h)
          | returned r es =>
            rw [hml] at h
            simp only [StrataOut.evsOf, List.mem_cons] at h
            rcases h with h | h
            · cases h
            · exact ih (i + 1) req' hv' hrest k v (by rw [hml]; simpa [StrataOut.evsOf] using h)
          | panicked msg r es =>
            rw [hml] at h
            simp only [StrataOut.evsOf, List.mem_cons] at h
            rcases h with h | h
            · cases h
            · exact ih (i + 1) req' hv' hrest k v (by rw [hml]; simpa [StrataOut.evsOf] using h)
    | none =>
      rw [hc] at h
      simp only [] at h
      split at h
      · exact ih (i + 1) req hv hrest k v h
      · cases hpm : pathsMatchF s.pattern reqPath with
        | mk vars ok =>
          rw [hpm] at h
          cases ok with
          | false => exact ih (i + 1) req hv hrest k v h
          | true =>
            simp only [] at h
            cases hmw : mwLoop s.middleware 0 req with
            | panicked msg r es =>
              rw [hmw] at h
              simp only [StrataOut.evsOf] at h
              exact mwLoop_mwRun_vars s.middleware 0 req hv hs.1 k v
                (by rw [hmw]; simpa [MwOut.evsOf] using h)
            | done b req' es =>
              rw [hmw] at h
              simp only [] at h
              have hmwv : ∀ (k2 : Nat) (v2 : Option VarsList),
                  Ev.mwRun k2 v2 ∈ es → v2 = some [] := fun k2 v2 hin =>
                mwLoop_mwRun_vars s.middleware 0 req hv hs.1 k2 v2
                  (by rw [hmw]; simpa [MwOut.evsOf] using hin)
              cases hh : s.handler with
              | none =>
                rw [hh] at h
                simp only [StrataOut.evsOf] at h
                exact hmwv k v h
              | some hf =>
                rw [hh] at h
                simp only [] at h
                cases hact : hf.act { req' with vars := vars } with
                | error msg =>
                  rw [hact] at h
                  simp only [StrataOut.evsOf, List.mem_append, List.mem_singleton] at h
                  rcases h with h | h
                  · exact hmwv k v h
                  · cases h
                | ok reqF =>
                  rw [hact] at h
                  simp only [StrataOut.evsOf, List.mem_append, List.mem_singleton] at h
                  rcases h with h | h
                  · exact hmwv k v h
                  · cases h

theorem not_mwRun_defEvsF (rt : FRouter) (k : Nat) (v : Option VarsList) :
    Ev.mwRun k v ∉ defEvsF rt := by
  unfold defEvsF; split <;> simp

theorem serveFlat_mwRun_vars (rt : FRouter) (m p : String)
    (hrd : rt.redirect = none)
    (hpres : ∀ s ∈ rt.strata, stratumPreserves s)
    (k : Nat) (v : Option VarsList)
    (hmem : Ev.mwRun k v ∈ (serveFlat rt m p).events) : v = some [] := by
  unfold serveFlat at hmem
  rw [hrd] at hmem
  simp only [] at hmem
  unfold serveFlat.serveFlatMain at hmem
  simp only [] at hmem
  cases h : strataLoop m (explodePath p) rt.strata 0
      { id := rt.idGen.getD "", vars := some [], status := 0, error := none } with
  | returned r es =>
    rw [h] at hmem
    simp only [List.append_assoc, List.mem_append] at hmem
    rcases hmem with h0 | hB | hE | hD
    · simp at h0
    · have := mem_ite_nil_elim hB; simp at this
    · exact strataLoop_mwRun_vars m (explodePath p) rt.strata 0 _ rfl hpres k v
        (by rw [h]; simpa [StrataOut.evsOf] using hE)
    · rw [defEvsF] at hD
      have := mem_ite_nil_elim hD; simp at this
  | panicked msg r es =>
    rw [h] at hmem
    simp only [List.append_assoc, List.mem_append] at hmem
    rcases hmem with h0 | hB | hE | hR | hD
    · simp at h0
    · have := mem_ite_nil_elim hB; simp at this
    · exact strataLoop_mwRun_vars m (explodePath p) rt.strata 0 _ rfl hpres k v
        (by rw [h]; simpa [StrataOut.evsOf] using hE)
    · have := mem_ite_nil_elim hR; simp at this
    · rw [defEvsF] at hD
      have := mem_ite_nil_elim hD; simp at this
  | fell sc sr r es =>
    rw [h] at hmem
    by_cases hEH : rt.errorHook = true
    · simp only [hEH, if_true] at hmem
      simp only [List.append_assoc, List.mem_append] at hmem
      rcases hmem with h0 | hB | hE | hErr | hD
      · simp at h0
      · have := mem_ite_nil_elim hB; simp at this
      · exact strataLoop_mwRun_vars m (explodePath p) rt.strata 0 _ rfl hpres k v
          (by rw [h]; simpa [StrataOut.evsOf] using hE)
      · simp at hErr
      · rw [defEvsF] at hD
        have := mem_ite_nil_elim hD; simp at this
    · simp only [hEH, if_false, Bool.false_eq_true] at hmem
      simp only [List.append_assoc, List.mem_append] at hmem
      rcases hmem with h0 | hB | hE | hErr | hD
      · simp at h0
      · have := mem_ite_nil_elim hB; simp at this
      · exact strataLoop_mwRun_vars m (explodePath p) rt.strata 0 _ rfl hpres k v
          (by rw [h]; simpa [StrataOut.evsOf] using hE)
      · simp at hErr
      · rw [defEvsF] at hD
        have := mem_ite_nil_elim hD; simp at this



theorem c10Router_preserves : ∀ s ∈ c10Router.strata, stratumPreserves s := by
  intro s hs
  simp only [c10Router, List.mem_cons, List.not_mem_nil, or_false] at hs
  subst hs
  constructor
  · intro mw hmw
    simp only [List.mem_cons, List.not_mem_nil, or_false] at hmw
    have hmw2 : mw = mwNoop := by
      rcases hmw with hmw | hmw <;> exact (Option.some.inj hmw)
    subst hmw2
    intro req out hr
    rw [← Except.ok.inj hr]
  · intro mw hcall
    exact Option.noConfusion hcall



/-- C10: in the flat variant, per-route middleware runs before the
captured variables are stored on the context: with no Redirect hook and
middleware that do not themselves write the `Vars` field, every middleware
invocation observes `Vars` as the empty map created at dispatch start,
while the handler is invoked with exactly the bindings produced by the
pattern match of its stratum. -/
theorem claim_C10_middleware_before_vars :
    ∀ (rt : FRouter) (m p : String),
      rt.redirect = none →
      (∀ s ∈ rt.strata, stratumPreserves s) →
      (∀ (k : Nat) (v : Option VarsList),
        Ev.mwRun k v ∈ (serveFlat rt m p).events → v = some []) ∧
      (∀ (hid : Nat) (v : Option VarsList),
        Ev.handlerRun hid v ∈ (serveFlat rt m p).events →
        ∃ j s, firstMatchIdxF m (explodePath p) rt.strata = some j ∧
          rt.strata[j]? = some s ∧ v = (pathsMatchF s.pattern (explodePath p)).1) := by
  intro rt m p hrd hpres
  constructor
  · intro k v h
    exact serveFlat_mwRun_vars rt m p hrd hpres k v h
  · intro hid v h
    obtain ⟨req1, hmem2⟩ := serveFlat_handlerRun_from_loop rt m p hid v h
    obtain ⟨j, s, hf, h1, h2, h3, h4, h5⟩ :=
      strataLoop_handlerRun m (explodePath p) rt.strata 0 req1 hid v hmem2
    exact ⟨j, s, h1, h2, h5⟩

/-- Witness for C10 at the router with two no-op middleware. -/
theorem claim_C10_witness :
    c10Router.redirect = none ∧
    Ev.mwRun 0 (some []) ∈ (serveFlat c10Router "GET" "/a/literal").events ∧
    Ev.mwRun 1 (some []) ∈ (serveFlat c10Router "GET" "/a/literal").events ∧
    (some ([] : VarsList)) = some ([] : VarsList) ∧
    (∃ j s, firstMatchIdxF "GET" (explodePath "/a/literal") c10Router.strata = some j ∧
      c10Router.strata[j]? = some s ∧
      (some [("x", "literal")] : Option VarsList) =
        (pathsMatchF s.pattern (explodePath "/a/literal")).1) := by
  refine ⟨rfl, by decide, by decide, ?_, ?_⟩
  · exact (claim_C10_middleware_before_vars c10Router "GET" "/a/literal" rfl
      c10Router_preserves).1 0 (some []) (by decide)
  · exact (claim_C10_middleware_before_vars c10Router "GET" "/a/literal" rfl
      c10Router_preserves).2 3 (some [("x", "literal")]) (by decide)

end GoRouter
